import Mathlib

/-!
Verification development for the shard-orchestration control plane
(`ShardingMaster` / `ShardingSlave`).  JavaScript objects are embedded as
Lean structures, machine numbers as `Int`, object maps as association
lists, and the event-driven handlers as explicit state-passing functions.
-/

/-- Heartbeat configuration of the orchestrator
(`ShardMasterConfig.heartbeat`). -/
structure HeartbeatConfig where
  requestRebootAfter : Int
  expectRebootAfter : Int
  assumeDeadAfter : Int
  useMessageStats : Bool
deriving DecidableEq, Repr

/-- The telemetry snapshot a shard reports (`ShardStatus`), restricted to
the fields the orchestrator's handlers read. -/
structure ShardStat where
  sid : String
  messageCountDelta : Int
  messageCountTotal : Int
  currentShardId : Int
  currentShardCount : Int
  goalShardId : Int
deriving DecidableEq, Repr

/-- Modelled from the spec: a freshly constructed `ShardStatus(userId)`
(`ShardStatus.js` is not among the analyzed sources).  Counters start at
zero and the shard ids are unset (`-1`), matching the spec's description of
a heartbeat snapshot before any telemetry has been received. -/
def ShardStat.init (id : String) : ShardStat :=
  { sid := id, messageCountDelta := 0, messageCountTotal := 0,
    currentShardId := -1, currentShardCount := -1, goalShardId := -1 }

/-- Modelled from the spec: `ShardStatus#update` copies the received
snapshot's fields into the stored snapshot (`ShardStatus.js` is not among
the analyzed sources; the spec says the snapshot is "consumed by the
orchestrator to update the matching RegistryEntry", keeping only the
latest value). -/
def ShardStat.update (_old upd : ShardStat) : ShardStat := upd

/-- One registry entry of the orchestrator (`ShardInfo`), restricted to the
fields the analyzed handlers read and write. -/
structure ShardInfo where
  id : String
  key : Option String
  isMaster : Bool
  goalShardId : Int
  goalShardCount : Int
  currentShardId : Int
  currentShardCount : Int
  lastSeen : Int
  lastHeartbeat : Int
  bootTime : Int
  stopTime : Int
  stats : Option ShardStat
deriving DecidableEq, Repr

/-- The effect of the shutdown directive enqueued by `_refreshShardStatus`:
`s.stopTime = now; s.goalShardId = -1; s.goalShardCount = -1`. -/
def demoteInfo (now : Int) (s : ShardInfo) : ShardInfo :=
  { s with stopTime := now, goalShardId := -1, goalShardCount := -1 }

/-- The staleness test of the `correct` loop in `_refreshShardStatus`:
`now - el.lastHeartbeat > hbConf.requestRebootAfter &&
 now - el.lastHeartbeat < hbConf.expectRebootAfter`. -/
def staleWin (hb : HeartbeatConfig) (now : Int) (el : ShardInfo) : Prop :=
  hb.requestRebootAfter < now - el.lastHeartbeat ∧
    now - el.lastHeartbeat < hb.expectRebootAfter

instance (hb : HeartbeatConfig) (now : Int) (el : ShardInfo) :
    Decidable (staleWin hb now el) := by
  unfold staleWin; infer_instance

/-- Insert into a list that is kept in descending `bootTime` order; helper
for `sortBoot`. -/
def insertBoot (e : ShardInfo) : List ShardInfo → List ShardInfo
  | [] => [e]
  | x :: xs =>
    if e.bootTime ≤ x.bootTime then x :: insertBoot e xs else e :: x :: xs

/-- `correct.sort((a, b) => b.bootTime - a.bootTime)`: sort the correct
entries by descending boot time.  (With pairwise-distinct boot times the
descending order is unique, so any sorting algorithm produces the array
the JavaScript engine's sort produces.) -/
def sortBoot : List ShardInfo → List ShardInfo
  | [] => []
  | e :: rest => insertBoot e (sortBoot rest)

/-- The body of the `for` loop over the sorted `correct` array in
`_refreshShardStatus` (the stale check, then the `foundIds` duplicate
check), returning for each input entry the entry's final field values.
`found` is the `foundIds` accumulator of `(goalShardId, goalShardCount)`
pairs. -/
def goPass (hb : HeartbeatConfig) (now : Int) (found : List (Int × Int)) :
    List ShardInfo → List (ShardInfo × ShardInfo)
  | [] => []
  | el :: rest =>
    if staleWin hb now el then
      (el, demoteInfo now el) :: goPass hb now found rest
    else if (el.goalShardId, el.goalShardCount) ∈ found then
      (el, demoteInfo now el) :: goPass hb now found rest
    else
      (el, el) :: goPass hb now ((el.goalShardId, el.goalShardCount) :: found) rest

/-- The `(input, output)` pairs of one run of the `correct` loop of
`_refreshShardStatus` over the entries configured for the goal. -/
def refreshPairs (hb : HeartbeatConfig) (now : Int) (correct : List ShardInfo) :
    List (ShardInfo × ShardInfo) :=
  goPass hb now [] (sortBoot correct)

/-- The final field values of the `correct` entries after one run of the
loop in `_refreshShardStatus`. -/
def refreshCorrect (hb : HeartbeatConfig) (now : Int) (correct : List ShardInfo) :
    List ShardInfo :=
  (refreshPairs hb now correct).map Prod.snd

/-- The predicate "claims the target pair `(p, c)`", i.e. the match used
against `foundIds`. -/
def claimsPair (p c : Int) (e : ShardInfo) : Prop :=
  e.goalShardId = p ∧ e.goalShardCount = c

instance (p c : Int) (e : ShardInfo) : Decidable (claimsPair p c e) := by
  unfold claimsPair; infer_instance

/-- `_getCurrentConfigured(goal)`: non-master entries running with the goal
shard count whose last heartbeat is younger than `assumeDeadAfter`. -/
def getCurrentConfigured (hb : HeartbeatConfig) (goal now : Int)
    (users : List ShardInfo) : List ShardInfo :=
  users.filter fun el =>
    !el.isMaster && el.goalShardCount == goal &&
      decide (now - hb.assumeDeadAfter < el.lastHeartbeat)

/-- `_getCurrentUnconfigured(goal)`: non-master entries NOT configured for
the goal count but recently seen. -/
def getCurrentUnconfigured (hb : HeartbeatConfig) (goal now : Int)
    (users : List ShardInfo) : List ShardInfo :=
  users.filter fun el =>
    !el.isMaster && el.goalShardCount != goal &&
      decide (now - hb.assumeDeadAfter < el.lastSeen)

/-- `_getCurrentUnboundIds(goal)`: start from `[0, …, goal-1]` and remove
(first occurrence, as `indexOf`/`splice` do) the `goalShardId` of every
non-master entry whose `goalShardCount` equals the goal.  Note the source
applies no heartbeat filter here. -/
def getCurrentUnboundIds (goal : Int) (users : List ShardInfo) : List Int :=
  if goal < 0 then []
  else
    users.foldl
      (fun ids el =>
        if el.isMaster then ids
        else if el.goalShardCount = goal then ids.erase el.goalShardId
        else ids)
      ((List.range goal.toNat).map Int.ofNat)

/-- The configuration fields of `ShardMasterConfig` read by
`_socketConnection`. -/
structure MasterConfig where
  connCount : Int
  connTime : Int
  tsPrecision : Int
deriving DecidableEq, Repr

/-- The `while` loop of `_socketConnection` that scans
`_ipConnectHistory` (oldest first): stops once `ipCount` reaches
`connCount`, marks entries older than `connTime` for removal, and counts
younger entries from the same address.  Returns `(remove, ipCount)`. -/
def rlScan (ip : String) (cc ct now : Int) :
    List (String × Int) → Nat → Nat → Int → (Nat × Int)
  | [], _, remove, ipCount => (remove, ipCount)
  | e :: rest, i, remove, ipCount =>
    if ipCount < cc then
      if now - e.2 ≥ ct then rlScan ip cc ct now rest (i + 1) (i + 1) ipCount
      else if ip = e.1 then rlScan ip cc ct now rest (i + 1) remove (ipCount + 1)
      else rlScan ip cc ct now rest (i + 1) remove ipCount
    else (remove, ipCount)

/-- Parsed `authorization` header `"<id>,<signature>,<unix-millis>"`.
`tsRaw = none` models a third field that does not coerce to a number;
`some 0` models the falsy numeric `0` (both fail `!(timestamp * 1)`). -/
structure AuthHeader where
  userId : String
  userSig : String
  tsRaw : Option Int
deriving DecidableEq, Repr

/-- How `_socketConnection` can dispose of a connection attempt. -/
inductive ConnOutcome where
  | rateLimited
  | noHeader
  | badHeader
  | usersNotLoaded
  | unknownId
  | duplicate
  | badTimestamp
  | noPrivKey
  | noUserKey
  | badSignature
  | masterDuplicate
  | accepted
deriving DecidableEq, Repr

/-- The orchestrator state read and written by `_socketConnection`.
`knownUsers = none` models `_knownUsers === null` (not yet loaded). -/
structure MasterConn where
  knownUsers : Option (List (String × ShardInfo))
  shardSocketIds : List String
  masterConnected : Bool
  ipHistory : List (String × Int)
  havePrivKey : Bool
deriving DecidableEq, Repr

/-- Result of one `_socketConnection` invocation: the disposition, the new
orchestrator state, whether the `masterVerification` challenge was emitted
to the socket, and whether the `status` (and sibling) handlers were
registered on it. -/
structure ConnResult where
  outcome : ConnOutcome
  state : MasterConn
  sentMasterVerification : Bool
  statusHandlerRegistered : Bool
deriving DecidableEq, Repr

/-- A rejecting `socket.disconnect(true); return;`. -/
def connReject (o : ConnOutcome) (st : MasterConn) : ConnResult :=
  { outcome := o, state := st, sentMasterVerification := false,
    statusHandlerRegistered := false }

/-- `users[userId]` lookup in the known-users map. -/
def lookupUser (users : List (String × ShardInfo)) (id : String) :
    Option ShardInfo :=
  (users.find? fun p => p.1 = id).map Prod.snd

/-- `user.lastSeen = now` on the entry stored under `id`. -/
def touchLastSeen (users : List (String × ShardInfo)) (id : String)
    (now : Int) : List (String × ShardInfo) :=
  users.map fun p => if p.1 = id then (p.1, { p.2 with lastSeen := now }) else p

/-- `Math.abs (a)`. -/
def intAbs (a : Int) : Int := if a < 0 then -a else a

/-- `_socketConnection(socket)`: the sequential decision chain run for a
new socket, from the connection-rate limiter through the authentication
checks to handler registration.  `verify key data sig` abstracts
`crypto.createVerify(signAlgorithm)` over the registered public key. -/
def socketConnection (cfg : MasterConfig)
    (verify : String → String → String → Bool) (now : Int) (ip : String)
    (header : Option AuthHeader) (st : MasterConn) : ConnResult :=
  let hist1 := st.ipHistory ++ [(ip, now)]
  let scan := rlScan ip cfg.connCount cfg.connTime now hist1 0 0 0
  let hist2 := if 0 < scan.1 then hist1.drop scan.1 else hist1
  let st := { st with ipHistory := hist2 }
  if cfg.connCount ≤ scan.2 then connReject .rateLimited st
  else
    match header with
    | none => connReject .noHeader st
    | some h =>
      if h.userId = "" ∨ h.userSig = "" ∨ h.tsRaw = none ∨ h.tsRaw = some 0 then
        connReject .badHeader st
      else
        match st.knownUsers with
        | none => connReject .usersNotLoaded st
        | some users =>
          match lookupUser users h.userId with
          | none => connReject .unknownId st
          | some user =>
            if h.userId ∈ st.shardSocketIds then connReject .duplicate st
            else
              let ts := h.tsRaw.getD 0
              if cfg.tsPrecision < intAbs (ts - now) then
                connReject .badTimestamp st
              else if !st.havePrivKey then connReject .noPrivKey st
              else
                match user.key with
                | none => connReject .noUserKey st
                | some key =>
                  if !verify key (h.userId ++ toString ts) h.userSig then
                    connReject .badSignature st
                  else
                    let st :=
                      { st with knownUsers := some (touchLastSeen users h.userId now) }
                    if user.isMaster && st.masterConnected then
                      connReject .masterDuplicate st
                    else
                      { outcome := .accepted,
                        state :=
                          { st with
                            masterConnected :=
                              st.masterConnected || user.isMaster,
                            shardSocketIds :=
                              if user.isMaster then st.shardSocketIds
                              else h.userId :: st.shardSocketIds },
                        sentMasterVerification := true,
                        statusHandlerRegistered := true }

/-- Mail configuration (`ShardMasterConfig.MailConfig`): both
`_sendShardCreateEmail` and `_sendShardCreateFailEmail` return immediately
when `enabled` is false. -/
structure MailConfig where
  enabled : Bool
deriving DecidableEq, Repr

/-- The operator notifications `generateShardConfig` can spawn. -/
inductive MailEvent where
  | createFail
  | createOk (file : String)
deriving DecidableEq, Repr

/-- The orchestrator state touched by `generateShardConfig`: the
known-users registry, the notifications spawned, and how many times the
registry was persisted (`_saveUsers`). -/
structure MintState where
  knownUsers : List (String × ShardInfo)
  mails : List MailEvent
  savedUsers : Nat
deriving DecidableEq, Repr

/-- `new ShardInfo(name)`: a blank registry entry. -/
def ShardInfo.blank (name : String) : ShardInfo :=
  { id := name, key := none, isMaster := false, goalShardId := -1,
    goalShardCount := -1, currentShardId := -1, currentShardCount := -1,
    lastSeen := 0, lastHeartbeat := 0, bootTime := 0, stopTime := 0,
    stats := none }

/-- `this._knownUsers[id] = info` (replace an existing binding or add a
new one). -/
def putUser (users : List (String × ShardInfo)) (id : String)
    (info : ShardInfo) : List (String × ShardInfo) :=
  if users.any fun p => p.1 = id then
    users.map fun p => if p.1 = id then (id, info) else p
  else users ++ [(id, info)]

/-- `delete this._knownUsers[id]`. -/
def dropUser (users : List (String × ShardInfo)) (id : String) :
    List (String × ShardInfo) :=
  users.filter fun p => p.1 ≠ id

/-- `_sendShardCreateFailEmail`: spawns the failure mail only when mail is
enabled. -/
def sendShardCreateFailEmail (mail : MailConfig) (st : MintState) : MintState :=
  if mail.enabled then { st with mails := st.mails ++ [.createFail] } else st

/-- `_sendShardCreateEmail`: spawns the creation mail only when mail is
enabled. -/
def sendShardCreateEmail (mail : MailConfig) (file : String) (st : MintState) :
    MintState :=
  if mail.enabled then { st with mails := st.mails ++ [.createOk file] } else st

/-- `generateShardConfig(isMaster)` with its asynchronous continuations run
to completion.  `newId` is the fresh name `_generateShardName` produced
(the source loops until the name is unused), `keygen` is the outcome of
`generateKeyPair` (`none` = error), and `writeOk` tells whether
`common.mkAndWrite` of the per-shard config artifact succeeded. -/
def generateShardConfig (mail : MailConfig) (isMaster : Bool) (newId : String)
    (keygen : Option (String × String)) (writeOk : Bool) (st : MintState) :
    MintState :=
  let made := { ShardInfo.blank newId with isMaster := isMaster }
  let st := { st with knownUsers := putUser st.knownUsers newId made }
  match keygen with
  | none =>
    sendShardCreateFailEmail mail
      { st with knownUsers := dropUser st.knownUsers newId }
  | some (pub, _priv) =>
    let made := { made with key := some pub }
    let st := { st with knownUsers := putUser st.knownUsers newId made }
    if writeOk then
      let st := sendShardCreateEmail mail ("shard_" ++ newId ++ "_config.json") st
      { st with savedUsers := st.savedUsers + 1 }
    else
      sendShardCreateFailEmail mail
        { st with knownUsers := dropUser st.knownUsers newId }

/-- Outcome delivered to an `evalRequest` callback on the slave. -/
inductive EvalOut where
  | ok (r : String)
  | er (e : String)
deriving DecidableEq, Repr

/-- The slave state touched by `_evalRequest` and the child `message`
listeners: whether a child process exists, the pending promises of
`this._evals` keyed by script (with the callbacks attached to each
promise, in attachment order), the `{_eval: script}` messages sent to the
child, and the record of callback invocations. -/
structure SlaveEvalState where
  hasChild : Bool
  pending : List (String × List Nat)
  sent : List String
  calls : List (Nat × EvalOut)
deriving DecidableEq, Repr

/-- `_evalRequest(script, cb)` on the slave: reply `'Not Running'` without
a child; reuse the pending promise when `this._evals.has(script)`;
otherwise create the promise, register the child listener and send
`{_eval: script}` to the child. -/
def evalRequest (script : String) (cb : Nat) (st : SlaveEvalState) :
    SlaveEvalState :=
  if !st.hasChild then
    { st with calls := st.calls ++ [(cb, .er "Not Running")] }
  else
    match st.pending.find? fun p => p.1 = script with
    | some _ =>
      { st with
        pending := st.pending.map fun p =>
          if p.1 = script then (p.1, p.2 ++ [cb]) else p }
    | none =>
      { st with pending := st.pending ++ [(script, [cb])],
                sent := st.sent ++ [script] }

/-- The child answering `{_eval: script}`: the registered listener matches
the script, removes itself, deletes the `_evals` entry, and settles the
promise, which invokes every attached callback with the same outcome. -/
def childEvalReply (script : String) (out : EvalOut) (st : SlaveEvalState) :
    SlaveEvalState :=
  match st.pending.find? fun p => p.1 = script with
  | some p =>
    { st with pending := st.pending.filter fun q => q.1 ≠ script,
              calls := st.calls ++ p.2.map fun c => (c, out) }
  | none => st

/-- A reply from one shard to the broadcast `evalRequest`. -/
inductive BReply where
  | ok (r : String)
  | er (e : String)
deriving DecidableEq, Repr

/-- One completion observed by `broadcastEvalToShards`' `done()` counter:
either the synchronous `done()` for a shard whose `currentShardId < 0`, or
a reply arriving from the shard holding partition `id`. -/
inductive BEvent where
  | immediate
  | reply (id : Int) (r : BReply)
deriving DecidableEq, Repr

/-- A firing of the `broadcastEvalToShards` callback. -/
inductive BCall where
  | failed (e : String)
  | succeeded (out : List (Int × String))
deriving DecidableEq, Repr

/-- The closure state of one `broadcastEvalToShards` call: `numDone`,
`err`, the sparse `out` array (modelled as an id-indexed map), and the
callback invocations. -/
structure BState where
  numDone : Nat
  err : Option String
  out : List (Int × String)
  calls : List BCall
deriving DecidableEq, Repr

/-- `out[id] = res` on the sparse result array. -/
def upsertOut (out : List (Int × String)) (id : Int) (r : String) :
    List (Int × String) :=
  if out.any fun p => p.1 = id then
    out.map fun p => if p.1 = id then (id, r) else p
  else out ++ [(id, r)]

/-- The inner `done()` of `broadcastEvalToShards` over `num` shard
sockets. -/
def bDone (num : Nat) (s : BState) : BState :=
  let nd := s.numDone + 1
  if s.err.isSome ∧ nd ≤ num then
    { s with numDone := num + 1, calls := s.calls ++ [.failed (s.err.getD "")] }
  else if nd = num then
    { s with numDone := nd, calls := s.calls ++ [.succeeded s.out] }
  else { s with numDone := nd }

/-- Processing one completion: an error reply stores the error and calls
`done()`; a successful reply stores `out[id] = res` and calls `done()`;
the `currentShardId < 0` path calls `done()` directly. -/
def bStep (num : Nat) (s : BState) : BEvent → BState
  | .immediate => bDone num s
  | .reply _ (.er e) => bDone num { s with err := some e }
  | .reply id (.ok r) => bDone num { s with out := upsertOut s.out id r }

/-- Closure state at the start of `broadcastEvalToShards`. -/
def bInit : BState := { numDone := 0, err := none, out := [], calls := [] }

/-- One full `broadcastEvalToShards` call over `num` connected shard
sockets, with `evs` the completions in arrival order. -/
def broadcastRun (num : Nat) (evs : List BEvent) : BState :=
  evs.foldl (bStep num) bInit

/-- The `out[id] = res` assignments accumulated over a completion
sequence. -/
def outFold (evs : List BEvent) : List (Int × String) :=
  evs.foldl
    (fun o ev => match ev with
      | .reply id (.ok r) => upsertOut o id r
      | _ => o)
    []

/-- Splits a completion sequence at its first error:
`some (pre, e, post)` with `evs = pre ++ [reply _ (er e)] ++ post` and no
error in `pre`. -/
def firstErrSplit : List BEvent → Option (List BEvent × String × List BEvent)
  | [] => none
  | .reply _ (.er e) :: rest => some ([], e, rest)
  | ev :: rest =>
    match firstErrSplit rest with
    | none => none
    | some (p, e, q) => some (ev :: p, e, q)

/-- The partition ids of the successful replies in a completion
sequence. -/
def okIds (evs : List BEvent) : List Int :=
  evs.filterMap fun ev =>
    match ev with
    | .reply i (.ok _) => some i
    | _ => none

/-- Split a character string at `'/'` (JavaScript strings are embedded as
`List Char`). -/
def splitSlash : List Char → List (List Char)
  | [] => [[]]
  | '/' :: rest => [] :: splitSlash rest
  | c :: rest =>
    match splitSlash rest with
    | [] => [[c]]
    | s :: ss => (c :: s) :: ss

/-- Join path segments with `'/'`. -/
def joinSlash : List (List Char) → List Char
  | [] => []
  | [s] => s
  | s :: ss => s ++ '/' :: joinSlash ss

/-- The segment normalisation `path.resolve` performs on an absolute path:
empty and `.` segments are dropped, `..` removes the previous segment (at
the root it is a no-op). -/
def normSegs (segs : List (List Char)) : List (List Char) :=
  segs.foldl
    (fun acc seg =>
      if seg = [] ∨ seg = ['.'] then acc
      else if seg = ['.', '.'] then acc.dropLast
      else acc ++ [seg])
    []

/-- `path.resolve` of an absolute path string. -/
def resolveAbs (s : List Char) : List Char :=
  '/' :: joinSlash (normSegs (splitSlash s))

/-- `path.resolve(`${botCWD}/${filename}`)` in `_receiveMasterFile` /
`_sendMasterFile`. -/
def resolvedTarget (botCWD filename : List Char) : List Char :=
  resolveAbs (botCWD ++ '/' :: filename)

/-- The containment check the slave runs on both file-relay operations:
`file.startsWith(botCWD)`. -/
def slaveFileAllowed (botCWD filename : List Char) : Bool :=
  botCWD.isPrefixOf (resolvedTarget botCWD filename)

/-- Modelled from the spec: "path-validated to resolve within the worker's
project root" — the resolved target is inside the directory `botCWD` when
the root's path segments are a prefix of the target's path segments. -/
def withinProjectRootSpec (botCWD filename : List Char) : Bool :=
  (normSegs (splitSlash botCWD)).isPrefixOf
    (normSegs (splitSlash (botCWD ++ '/' :: filename)))

/-- `_sendMasterFile(filename, cb)`: `cb(null)` when the prefix check
fails or the read errors, otherwise `cb(data)`.  `read` abstracts
`fs.readFile` on the resolved path. -/
def sendMasterFile (read : List Char → Option (List Char))
    (botCWD filename : List Char) : Option (List Char) :=
  if !slaveFileAllowed botCWD filename then none
  else
    match read (resolvedTarget botCWD filename) with
    | none => none
    | some data => some data

/-- `_receiveMasterFile(filename, data)`: writes the resolved file unless
the prefix check fails; `disk` is the written-files journal. -/
def receiveMasterFile (botCWD filename data : List Char)
    (disk : List (List Char × List Char)) : List (List Char × List Char) :=
  if !slaveFileAllowed botCWD filename then disk
  else disk ++ [(resolvedTarget botCWD filename, data)]

/-- The `status` event handler registered by `_socketConnection` on a
verified socket, as the transformation of the matching registry entry
(the parse of the report and the `push`-style immediate heartbeat reply
are outside the entry update). -/
def statusHandler (hb : HeartbeatConfig) (now : Int) (user : ShardInfo)
    (rep : ShardStat) : ShardInfo :=
  let user := { user with lastSeen := now }
  let stats :=
    match user.stats with
    | none => ShardStat.init user.id
    | some st => ShardStat.update st rep
  let user := { user with stats := some stats }
  let user :=
    if hb.useMessageStats then
      if 0 < stats.messageCountDelta then
        { user with lastHeartbeat := user.lastSeen }
      else user
    else { user with lastHeartbeat := user.lastSeen }
  { user with currentShardId := stats.currentShardId,
              currentShardCount := stats.currentShardCount }

/-- Boolean form of `claimsPair`, for `List.filter`. -/
def claimsPairB (p c : Int) (e : ShardInfo) : Bool :=
  decide (claimsPair p c e)

/-- The number of history entries from address `ip` whose age is inside the
sliding window (including the just-pushed current attempt when applied to
the pushed history). -/
def freshCount (ip : String) (ct now : Int) (l : List (String × Int)) : Nat :=
  (l.filter fun e => decide (now - e.2 < ct) && decide (e.1 = ip)).length

/-- `outFold` generalised to an arbitrary starting array. -/
def outFoldFrom (acc : List (Int × String)) (evs : List BEvent) :
    List (Int × String) :=
  evs.foldl
    (fun o ev => match ev with
      | .reply id (.ok r) => upsertOut o id r
      | _ => o)
    acc

/-- Invariant of the `broadcastEvalToShards` closure state after a prefix
`evs` of the completions has been processed (valid while
`evs.length ≤ num`). -/
def bInv (num : Nat) (evs : List BEvent) (s : BState) : Prop :=
  s.out = outFold evs ∧
  match firstErrSplit evs with
  | none =>
    s.err = none ∧ s.numDone = evs.length ∧
    s.calls =
      if evs.length = num ∧ 1 ≤ num then [BCall.succeeded (outFold evs)]
      else []
  | some (_, e, post) =>
    s.err.isSome = true ∧ s.numDone = num + 1 + post.length ∧
    s.calls = [BCall.failed e]

/-- Heartbeat config used in the concrete duplicate-resolution scenarios
(`requestRebootAfter = 10`, `expectRebootAfter = assumeDeadAfter = 30`). -/
def hbDup : HeartbeatConfig :=
  { requestRebootAfter := 10, expectRebootAfter := 30, assumeDeadAfter := 30,
    useMessageStats := false }

/-- Duplicate claimant that has missed heartbeats for 20 ms (inside the
reboot-request window, not yet dead), most recently booted. -/
def dupStaleA : ShardInfo :=
  { ShardInfo.blank "a" with
    goalShardId := 0, goalShardCount := 2, lastHeartbeat := 80,
    bootTime := 100 }

/-- Second stale duplicate claimant of the same target pair, booted
earlier. -/
def dupStaleB : ShardInfo :=
  { ShardInfo.blank "b" with
    goalShardId := 0, goalShardCount := 2, lastHeartbeat := 80,
    bootTime := 50 }

/-- Fresh duplicate claimant (heartbeat 5 ms old), most recently booted. -/
def dupFreshA : ShardInfo :=
  { ShardInfo.blank "a" with
    goalShardId := 0, goalShardCount := 2, lastHeartbeat := 95,
    bootTime := 100 }

/-- Fresh duplicate claimant of the same pair, booted earlier. -/
def dupFreshB : ShardInfo :=
  { ShardInfo.blank "b" with
    goalShardId := 0, goalShardCount := 2, lastHeartbeat := 95,
    bootTime := 50 }

/-- Heartbeat config with distinct staleness thresholds
(`10 < 20 < 30`). -/
def hbThresh : HeartbeatConfig :=
  { requestRebootAfter := 10, expectRebootAfter := 20, assumeDeadAfter := 30,
    useMessageStats := false }

/-- Entry whose heartbeat age at `now = 100` is exactly
`requestRebootAfter`. -/
def boundaryEntry : ShardInfo :=
  { ShardInfo.blank "e" with
    goalShardId := 0, goalShardCount := 1, lastHeartbeat := 90, bootTime := 1 }

/-- Entry whose heartbeat age at `now = 100` is 15, strictly inside
`(requestRebootAfter, expectRebootAfter)`. -/
def staleEntry : ShardInfo :=
  { ShardInfo.blank "e" with
    goalShardId := 0, goalShardCount := 1, lastHeartbeat := 85, bootTime := 1 }

/-- Entry whose heartbeat age at `now = 100` is 100, far past
`assumeDeadAfter`, still bound to target id 0 of goal count 1. -/
def deadEntry : ShardInfo :=
  { ShardInfo.blank "d" with
    goalShardId := 0, goalShardCount := 1, lastHeartbeat := 0, bootTime := 1 }

/-- Rate-limit configuration allowing `connCount = 2` attempts per
`connTime = 1000` ms. -/
def cfgRL : MasterConfig :=
  { connCount := 2, connTime := 1000, tsPrecision := 50 }

/-- Rate-limit configuration with `connCount = 1`. -/
def cfgRL1 : MasterConfig :=
  { connCount := 1, connTime := 1000, tsPrecision := 50 }

/-- Orchestrator state holding one fresh connection attempt from `"ip"`
in the history. -/
def stRL : MasterConn :=
  { knownUsers := some [], shardSocketIds := [], masterConnected := false,
    ipHistory := [("ip", 0)], havePrivKey := true }

/-- Orchestrator state with an empty connection history. -/
def stRL0 : MasterConn :=
  { knownUsers := some [], shardSocketIds := [], masterConnected := false,
    ipHistory := [], havePrivKey := true }

/-- The registered master-role worker used in the duplicate-master
scenario, with `lastSeen = 5`. -/
def masterInfo : ShardInfo :=
  { ShardInfo.blank "m" with isMaster := true, key := some "k", lastSeen := 5 }

/-- Orchestrator state in which the master shard is already connected. -/
def stMasterDup : MasterConn :=
  { knownUsers := some [("m", masterInfo)], shardSocketIds := [],
    masterConnected := true, ipHistory := [], havePrivKey := true }

/-- Handshake configuration used in the duplicate-master scenario. -/
def cfgHS : MasterConfig :=
  { connCount := 10, connTime := 1000, tsPrecision := 50 }

/-- A well-formed authorization header for the master worker at
timestamp 100. -/
def hdrMaster : AuthHeader :=
  { userId := "m", userSig := "sig", tsRaw := some 100 }

/-- Fresh slave state: child running, no pending evals. -/
def stEval : SlaveEvalState :=
  { hasChild := true, pending := [], sent := [], calls := [] }

/-- Mint state holding one pre-existing worker `"xy"`. -/
def mintSt : MintState :=
  { knownUsers := [("xy", ShardInfo.blank "xy")], mails := [], savedUsers := 0 }

/-- The completion sequence of two successful replies from partitions 0
and 1. -/
def evsOk : List BEvent :=
  [BEvent.reply 0 (BReply.ok "a"), BEvent.reply 1 (BReply.ok "b")]

/-- The project root `"/bot"` of the path-traversal scenario. -/
def cwdEsc : List Char := ['/', 'b', 'o', 't']

/-- The relayed filename `"../botx/s"`, resolving to `"/botx/s"`: outside
the `"/bot"` directory yet sharing its string prefix. -/
def fnEsc : List Char := ['.', '.', '/', 'b', 'o', 't', 'x', '/', 's']

/-- Heartbeat config with `useMessageStats` enabled. -/
def hbMsg : HeartbeatConfig :=
  { requestRebootAfter := 10, expectRebootAfter := 20, assumeDeadAfter := 30,
    useMessageStats := true }

/-- A stored snapshot for worker `"a"`. -/
def statA : ShardStat := ShardStat.init "a"

/-- Registry entry for worker `"a"` with an existing snapshot and
`lastHeartbeat = 5`. -/
def userA : ShardInfo :=
  { ShardInfo.blank "a" with stats := some statA, lastHeartbeat := 5 }

/-- A status report from `"a"` with two messages processed since the last
snapshot. -/
def repA : ShardStat := { statA with messageCountDelta := 2 }

/-- C10: every status report updates `lastSeen`; with `useMessageStats`
enabled, `lastHeartbeat` advances exactly when the report's
`messageCountDelta` is strictly positive (given an existing stored
snapshot); with it disabled every report sets `lastHeartbeat` to the new
`lastSeen`.  An idle worker therefore keeps an aging `lastHeartbeat`. -/
theorem status_report_heartbeat (hb : HeartbeatConfig) (now : Int)
    (user : ShardInfo) (rep : ShardStat) (st : ShardStat)
    (hst : user.stats = some st) (hold : user.lastHeartbeat ≠ now) :
    (statusHandler hb now user rep).lastSeen = now ∧
    (hb.useMessageStats = true →
      ((statusHandler hb now user rep).lastHeartbeat = now ↔
        0 < rep.messageCountDelta)) ∧
    (hb.useMessageStats = false →
      (statusHandler hb now user rep).lastHeartbeat = now) := by
  unfold statusHandler
  rw [hst]
  cases hmsg : hb.useMessageStats <;>
    by_cases hd : 0 < rep.messageCountDelta <;>
      simp [ShardStat.update, hd, hold]

/-- Closed instance of `status_report_heartbeat` for worker `"a"` with an
existing snapshot and a positive message delta. -/
theorem status_report_heartbeat_witness :
    (statusHandler hbMsg 7 userA repA).lastSeen = 7 ∧
    (hbMsg.useMessageStats = true →
      ((statusHandler hbMsg 7 userA repA).lastHeartbeat = 7 ↔
        0 < repA.messageCountDelta)) ∧
    (hbMsg.useMessageStats = false →
      (statusHandler hbMsg 7 userA repA).lastHeartbeat = 7) :=
  status_report_heartbeat hbMsg 7 userA repA statA (by decide) (by decide)

/-- Removing a freshly added binding restores a registry that did not
contain the key. -/
theorem dropUser_putUser (users : List (String × ShardInfo)) (id : String)
    (info : ShardInfo) (h : ∀ p ∈ users, p.1 ≠ id) :
    dropUser (putUser users id info) id = users := by
  unfold putUser dropUser
  have hany : (users.any fun p => p.1 = id) = false := by
    rw [List.any_eq_false]
    intro p hp
    simpa using h p hp
  simp only [hany, Bool.false_eq_true, if_false, List.filter_append]
  have h1 : users.filter (fun p => p.1 ≠ id) = users := by
    rw [List.filter_eq_self]
    intro p hp
    simpa using h p hp
  have h2 : ([(id, info)].filter fun p => p.1 ≠ id) = [] := by simp
  rw [h1, h2, List.append_nil]

/-- C9: if key-pair generation fails while minting a fresh worker
identity, the provisional entry is removed again (the registry is exactly
what it was before the mint), the registry is not persisted, and the
operator failure notification is raised (mail enabled). -/
theorem keygen_failure_atomic (mail : MailConfig) (isMaster : Bool)
    (newId : String) (writeOk : Bool) (st : MintState)
    (hfresh : ∀ p ∈ st.knownUsers, p.1 ≠ newId)
    (hmail : mail.enabled = true) :
    (generateShardConfig mail isMaster newId none writeOk st).knownUsers =
      st.knownUsers ∧
    (generateShardConfig mail isMaster newId none writeOk st).mails =
      st.mails ++ [MailEvent.createFail] ∧
    (generateShardConfig mail isMaster newId none writeOk st).savedUsers =
      st.savedUsers := by
  unfold generateShardConfig sendShardCreateFailEmail
  simp [hmail, dropUser_putUser st.knownUsers newId _ hfresh]

/-- Closed instance of `keygen_failure_atomic`: minting `"abc"` over a
registry holding `"xy"` with a failing key generation. -/
theorem keygen_failure_atomic_witness :
    (generateShardConfig { enabled := true } false "abc" none true mintSt).knownUsers =
      mintSt.knownUsers ∧
    (generateShardConfig { enabled := true } false "abc" none true mintSt).mails =
      mintSt.mails ++ [MailEvent.createFail] ∧
    (generateShardConfig { enabled := true } false "abc" none true mintSt).savedUsers =
      mintSt.savedUsers :=
  keygen_failure_atomic { enabled := true } false "abc" true mintSt
    (by decide) rfl

/-- C7: the file-relay containment check accepts `"../botx/s"` under root
`"/bot"` — the resolved path `"/botx/s"` passes the `startsWith` test while
lying outside the project root, so the file is read and written outside
the root (the spec's path validation is the claimed behavior; the string
prefix test implements it incorrectly). -/
theorem file_relay_prefix_escape :
    slaveFileAllowed cwdEsc fnEsc = true ∧
    withinProjectRootSpec cwdEsc fnEsc = false ∧
    sendMasterFile
      (fun p => if p = ['/', 'b', 'o', 't', 'x', '/', 's'] then some ['d'] else none)
      cwdEsc fnEsc = some ['d'] ∧
    receiveMasterFile cwdEsc fnEsc ['d'] [] =
      [(['/', 'b', 'o', 't', 'x', '/', 's'], ['d'])] := by
  decide

/-- The unbound-id fold only ever removes ids. -/
theorem unbound_foldl_not_mem_mono (goal : Int) (l : List ShardInfo)
    (acc : List Int) (i : Int) (h : i ∉ acc) :
    i ∉ l.foldl
      (fun ids el =>
        if el.isMaster then ids
        else if el.goalShardCount = goal then ids.erase el.goalShardId
        else ids)
      acc := by
  induction l generalizing acc with
  | nil => simpa using h
  | cons e rest ih =>
    simp only [List.foldl_cons]
    apply ih
    split
    · exact h
    · split
      · exact fun hmem => h (List.mem_of_mem_erase hmem)
      · exact h

/-- Any non-master entry configured for the goal count removes its goal
shard id from the unbound-id fold (and it is never re-added). -/
theorem unbound_foldl_not_mem (goal : Int) (l : List ShardInfo) :
    ∀ acc : List Int, acc.Nodup → ∀ e ∈ l, e.isMaster = false →
      e.goalShardCount = goal →
      e.goalShardId ∉ l.foldl
        (fun ids el =>
          if el.isMaster then ids
          else if el.goalShardCount = goal then ids.erase el.goalShardId
          else ids)
        acc := by
  induction l with
  | nil => intro acc _ e he; cases he
  | cons x rest ih =>
    intro acc hnd e he hm hc
    simp only [List.foldl_cons]
    rcases List.mem_cons.mp he with rfl | hrest
    · rw [if_neg (by simp [hm]), if_pos hc]
      apply unbound_foldl_not_mem_mono
      intro hmem
      exact ((List.Nodup.mem_erase_iff hnd).mp hmem).1 rfl
    · have hnd' : (if x.isMaster then acc
          else if x.goalShardCount = goal then acc.erase x.goalShardId
          else acc).Nodup := by
        split
        · exact hnd
        · split
          · exact hnd.erase _
          · exact hnd
      exact ih _ hnd' e hrest hm hc

/-- C2 (amended): once an entry's heartbeat age reaches
`assumeDeadAfter` it is excluded from the correct set, but its goal
partition id stays out of the unbound-id set: the unbound computation
removes the id of every non-master entry configured for the goal count
regardless of heartbeat, so the id does not become available. -/
theorem dead_shard_exclusion_amended (hb : HeartbeatConfig) (goal now : Int)
    (users : List ShardInfo) (e : ShardInfo) (he : e ∈ users)
    (hm : e.isMaster = false) (hc : e.goalShardCount = goal)
    (hage : hb.assumeDeadAfter ≤ now - e.lastHeartbeat) :
    e ∉ getCurrentConfigured hb goal now users ∧
    e.goalShardId ∉ getCurrentUnboundIds goal users := by
  constructor
  · intro hmem
    rw [getCurrentConfigured, List.mem_filter] at hmem
    have := hmem.2
    simp only [Bool.and_eq_true, decide_eq_true_eq] at this
    omega
  · rw [getCurrentUnboundIds]
    split
    · simp
    · refine unbound_foldl_not_mem goal users _ ?_ e he hm hc
      exact (List.nodup_range _).map (fun a b hab => Int.ofNat.inj hab)

/-- C2 counterexample to the claim as stated: `deadEntry` crossed both
`expectRebootAfter` and `assumeDeadAfter`, is excluded from the correct
set, yet its goal id 0 is NOT in the unbound set (which is empty). -/
theorem dead_shard_id_unbound_cex :
    hbThresh.assumeDeadAfter ≤ (100 : Int) - deadEntry.lastHeartbeat ∧
    hbThresh.expectRebootAfter ≤ (100 : Int) - deadEntry.lastHeartbeat ∧
    getCurrentConfigured hbThresh 1 100 [deadEntry] = [] ∧
    deadEntry.goalShardId = 0 ∧
    getCurrentUnboundIds 1 [deadEntry] = [] := by
  decide

/-- Closed instance of `dead_shard_exclusion_amended` at `deadEntry`. -/
theorem dead_shard_exclusion_amended_witness :
    deadEntry ∉ getCurrentConfigured hbThresh 1 100 [deadEntry] ∧
    deadEntry.goalShardId ∉ getCurrentUnboundIds 1 [deadEntry] :=
  dead_shard_exclusion_amended hbThresh 1 100 [deadEntry] deadEntry
    (by decide) (by decide) (by decide) (by decide)

/-- The loop processes each entry exactly once, in order. -/
theorem goPass_map_fst (hb : HeartbeatConfig) (now : Int) :
    ∀ (found : List (Int × Int)) (l : List ShardInfo),
      (goPass hb now found l).map Prod.fst = l := by
  intro found l
  induction l generalizing found with
  | nil => rfl
  | cons el rest ih =>
    unfold goPass
    split
    · simpa using ih found
    · split
      · simpa using ih found
      · simpa using ih _

/-- Each loop output is the input entry either untouched or demoted. -/
theorem goPass_snd_shape (hb : HeartbeatConfig) (now : Int) :
    ∀ (found : List (Int × Int)) (l : List ShardInfo),
      ∀ pr ∈ goPass hb now found l, pr.2 = pr.1 ∨ pr.2 = demoteInfo now pr.1 := by
  intro found l
  induction l generalizing found with
  | nil => intro pr hpr; cases hpr
  | cons el rest ih =>
    intro pr hpr
    unfold goPass at hpr
    split at hpr
    · rcases List.mem_cons.mp hpr with rfl | htail
      · exact Or.inr rfl
      · exact ih _ pr htail
    · split at hpr
      · rcases List.mem_cons.mp hpr with rfl | htail
        · exact Or.inr rfl
        · exact ih _ pr htail
      · rcases List.mem_cons.mp hpr with rfl | htail
        · exact Or.inl rfl
        · exact ih _ pr htail

/-- A loop input inside the reboot-request staleness window is always
output demoted. -/
theorem goPass_stale_demote (hb : HeartbeatConfig) (now : Int) :
    ∀ (found : List (Int × Int)) (l : List ShardInfo),
      ∀ pr ∈ goPass hb now found l, staleWin hb now pr.1 →
        pr.2 = demoteInfo now pr.1 := by
  intro found l
  induction l generalizing found with
  | nil => intro pr hpr; cases hpr
  | cons el rest ih =>
    intro pr hpr hsw
    unfold goPass at hpr
    split at hpr
    · rcases List.mem_cons.mp hpr with rfl | htail
      · rfl
      · exact ih _ pr htail hsw
    · split at hpr
      · rcases List.mem_cons.mp hpr with rfl | htail
        · rfl
        · exact ih _ pr htail hsw
      · rcases List.mem_cons.mp hpr with rfl | htail
        · exact absurd hsw (by assumption)
        · exact ih _ pr htail hsw

/-- `insertBoot` only repositions the inserted element. -/
theorem insertBoot_perm (e : ShardInfo) (l : List ShardInfo) :
    List.Perm (insertBoot e l) (e :: l) := by
  induction l with
  | nil => exact List.Perm.refl _
  | cons x xs ih =>
    unfold insertBoot
    split
    · exact (ih.cons x).trans (List.Perm.swap e x xs)
    · exact List.Perm.refl _

/-- The boot-time sort permutes the correct entries. -/
theorem sortBoot_perm (l : List ShardInfo) : List.Perm (sortBoot l) l := by
  induction l with
  | nil => exact List.Perm.refl _
  | cons e rest ih =>
    exact (insertBoot_perm e (sortBoot rest)).trans (ih.cons e)

/-- C8 (amended): a correct entry whose heartbeat age lies strictly
between `requestRebootAfter` and `expectRebootAfter` (the source tests
both bounds strictly) is enqueued for shutdown by the pass: its output is
`demoteInfo now` — `goalShardId = -1`, `goalShardCount = -1`,
`stopTime = now` — and it is removed from the surviving correct set. -/
theorem stale_window_demotion (hb : HeartbeatConfig) (now : Int)
    (correct : List ShardInfo) (e : ShardInfo) (he : e ∈ correct)
    (h1 : hb.requestRebootAfter < now - e.lastHeartbeat)
    (h2 : now - e.lastHeartbeat < hb.expectRebootAfter) :
    demoteInfo now e ∈ refreshCorrect hb now correct ∧
    ∀ pr ∈ refreshPairs hb now correct, pr.1 = e →
      pr.2 = demoteInfo now e := by
  have hsw : staleWin hb now e := ⟨h1, h2⟩
  have hsorted : e ∈ sortBoot correct := (sortBoot_perm correct).mem_iff.mpr he
  have hmem : e ∈ (goPass hb now [] (sortBoot correct)).map Prod.fst := by
    rw [goPass_map_fst]; exact hsorted
  obtain ⟨pr, hpr, hpre⟩ := List.mem_map.mp hmem
  have hdem : pr.2 = demoteInfo now e := by
    have h := goPass_stale_demote hb now [] (sortBoot correct) pr hpr
    rw [hpre] at h
    exact h hsw
  refine ⟨?_, ?_⟩
  · exact List.mem_map.mpr ⟨pr, hpr, hdem⟩
  · intro pr' hpr' hfst'
    have h := goPass_stale_demote hb now [] (sortBoot correct) pr' hpr'
    rw [hfst'] at h
    exact h hsw

/-- C8 counterexample to the claim as stated: at heartbeat age exactly
`requestRebootAfter` (the claimed inclusive lower bound) the entry is NOT
demoted — the pass leaves it untouched. -/
theorem stale_boundary_not_demoted_cex :
    (100 : Int) - boundaryEntry.lastHeartbeat = hbThresh.requestRebootAfter ∧
    refreshCorrect hbThresh 100 [boundaryEntry] = [boundaryEntry] ∧
    boundaryEntry.goalShardId = 0 := by
  decide

/-- Closed instance of `stale_window_demotion` at heartbeat age 15. -/
theorem stale_window_demotion_witness :
    demoteInfo 100 staleEntry ∈ refreshCorrect hbThresh 100 [staleEntry] :=
  (stale_window_demotion hbThresh 100 [staleEntry] staleEntry (by decide)
    (by decide) (by decide)).1

/-- Looking up a freshly appended pending entry. -/
theorem find?_pending_append (l : List (String × List Nat)) (s : String)
    (cs : List Nat) (h : ∀ p ∈ l, p.1 ≠ s) :
    ((l ++ [(s, cs)]).find? fun p => p.1 = s) = some (s, cs) := by
  induction l with
  | nil => simp
  | cons x xs ih =>
    have hx : ¬x.1 = s := h x (by simp)
    simp only [List.cons_append, List.find?]
    rw [decide_eq_false hx]
    exact ih fun p hp => h p (by simp [hp])

/-- Attaching a callback touches only the pending entry for the script. -/
theorem map_pending_append (l : List (String × List Nat)) (s : String)
    (cs : List Nat) (cb : Nat) (h : ∀ p ∈ l, p.1 ≠ s) :
    ((l ++ [(s, cs)]).map fun p => if p.1 = s then (p.1, p.2 ++ [cb]) else p) =
      l ++ [(s, cs ++ [cb])] := by
  induction l with
  | nil => simp
  | cons x xs ih =>
    have hx : ¬x.1 = s := h x (by simp)
    simp only [List.cons_append, List.map_cons, if_neg hx]
    rw [ih fun p hp => h p (by simp [hp])]

/-- Deleting the pending entry for the script restores the other
entries. -/
theorem filter_pending_append (l : List (String × List Nat)) (s : String)
    (cs : List Nat) (h : ∀ p ∈ l, p.1 ≠ s) :
    ((l ++ [(s, cs)]).filter fun q => q.1 ≠ s) = l := by
  rw [List.filter_append]
  have h1 : (l.filter fun q => q.1 ≠ s) = l := by
    rw [List.filter_eq_self]
    intro p hp
    simpa using h p hp
  have h2 : ([(s, cs)].filter fun q => q.1 ≠ s) = [] := by simp
  rw [h1, h2, List.append_nil]

/-- C5: two `evalRequest` invocations with the same script while the
first is unresolved send exactly one `{_eval: script}` message to the
child, and when the child settles the promise both callbacks receive the
same outcome (in attachment order); the pending table returns to its
prior state. -/
theorem eval_request_dedup (script : String) (c1 c2 : Nat) (out : EvalOut)
    (st : SlaveEvalState) (hchild : st.hasChild = true)
    (hnew : ∀ p ∈ st.pending, p.1 ≠ script) :
    (childEvalReply script out
        (evalRequest script c2 (evalRequest script c1 st))).sent =
      st.sent ++ [script] ∧
    (childEvalReply script out
        (evalRequest script c2 (evalRequest script c1 st))).calls =
      st.calls ++ [(c1, out), (c2, out)] ∧
    (childEvalReply script out
        (evalRequest script c2 (evalRequest script c1 st))).pending =
      st.pending := by
  have hfind : (st.pending.find? fun p => p.1 = script) = none := by
    rw [List.find?_eq_none]
    intro p hp
    simpa using hnew p hp
  have e1 : evalRequest script c1 st =
      { st with pending := st.pending ++ [(script, [c1])],
                sent := st.sent ++ [script] } := by
    unfold evalRequest
    rw [hchild, hfind]
    simp
  have e2 : evalRequest script c2 (evalRequest script c1 st) =
      { st with pending := st.pending ++ [(script, [c1, c2])],
                sent := st.sent ++ [script] } := by
    rw [e1]
    unfold evalRequest
    simp only [hchild, Bool.not_true, Bool.false_eq_true, if_false]
    rw [find?_pending_append st.pending script [c1] hnew]
    simp only []
    rw [map_pending_append st.pending script [c1] c2 hnew]
    simp
  rw [e2]
  unfold childEvalReply
  simp only []
  rw [find?_pending_append st.pending script [c1, c2] hnew]
  simp only []
  rw [filter_pending_append st.pending script [c1, c2] hnew]
  simp

/-- Closed instance of `eval_request_dedup` on a fresh slave state. -/
theorem eval_request_dedup_witness :
    (childEvalReply "s" (EvalOut.ok "r")
        (evalRequest "s" 2 (evalRequest "s" 1 stEval))).sent =
      stEval.sent ++ ["s"] ∧
    (childEvalReply "s" (EvalOut.ok "r")
        (evalRequest "s" 2 (evalRequest "s" 1 stEval))).calls =
      stEval.calls ++ [(1, EvalOut.ok "r"), (2, EvalOut.ok "r")] ∧
    (childEvalReply "s" (EvalOut.ok "r")
        (evalRequest "s" 2 (evalRequest "s" 1 stEval))).pending =
      stEval.pending :=
  eval_request_dedup "s" 1 2 (EvalOut.ok "r") stEval rfl (by decide)

/-- The scan's final count reaches `connCount` exactly when the history
holds at least `connCount` in-window entries from the address. -/
theorem rlScan_count_iff (ip : String) (cc ct now : Int) :
    ∀ (l : List (String × Int)) (i remove : Nat) (ic : Int), 0 ≤ ic →
      (cc ≤ (rlScan ip cc ct now l i remove ic).2 ↔
        cc ≤ ic + (freshCount ip ct now l : Int)) := by
  intro l
  induction l with
  | nil =>
    intro i rm ic hic
    simp [rlScan, freshCount]
  | cons e rest ih =>
    intro i rm ic hic
    simp only [rlScan]
    by_cases hlt : ic < cc
    · rw [if_pos hlt]
      by_cases hold : now - e.2 ≥ ct
      · rw [if_pos hold]
        have hfc : freshCount ip ct now (e :: rest) = freshCount ip ct now rest := by
          unfold freshCount
          simp [List.filter_cons, show ¬(now - e.2 < ct) by omega]
        rw [hfc]
        exact ih (i + 1) (i + 1) ic hic
      · rw [if_neg hold]
        by_cases hip : ip = e.1
        · rw [if_pos hip]
          have hfc : freshCount ip ct now (e :: rest) =
              freshCount ip ct now rest + 1 := by
            unfold freshCount
            simp [List.filter_cons, show now - e.2 < ct by omega, hip.symm]
          rw [hfc, ih (i + 1) rm (ic + 1) (by omega)]
          push_cast
          constructor <;> (intro; omega)
        · rw [if_neg hip]
          have hfc : freshCount ip ct now (e :: rest) =
              freshCount ip ct now rest := by
            unfold freshCount
            simp [List.filter_cons, show ¬(e.1 = ip) from fun hc => hip hc.symm]
          rw [hfc]
          exact ih (i + 1) rm ic hic
    · rw [if_neg hlt]
      constructor <;> (intro; omega)

/-- Any rejected connection (except the duplicate-master rejection, which
happens after `user.lastSeen = now`) leaves the known-users registry
untouched. -/
theorem socketConnection_reject_knownUsers (cfg : MasterConfig)
    (verify : String → String → String → Bool) (now : Int) (ip : String)
    (header : Option AuthHeader) (st : MasterConn)
    (h1 : (socketConnection cfg verify now ip header st).outcome ≠
      ConnOutcome.accepted)
    (h2 : (socketConnection cfg verify now ip header st).outcome ≠
      ConnOutcome.masterDuplicate) :
    (socketConnection cfg verify now ip header st).state.knownUsers =
      st.knownUsers := by
  revert h1 h2
  simp only [socketConnection]
  repeat' split
  all_goals intro h1 h2
  all_goals first
    | rfl
    | (exact absurd rfl h1)
    | (exact absurd rfl h2)

/-- A rejected connection never receives the `masterVerification`
challenge and never has the `status` handlers registered. -/
theorem socketConnection_reject_silent (cfg : MasterConfig)
    (verify : String → String → String → Bool) (now : Int) (ip : String)
    (header : Option AuthHeader) (st : MasterConn)
    (h : (socketConnection cfg verify now ip header st).outcome ≠
      ConnOutcome.accepted) :
    (socketConnection cfg verify now ip header st).sentMasterVerification =
        false ∧
      (socketConnection cfg verify now ip header st).statusHandlerRegistered =
        false := by
  revert h
  simp only [socketConnection]
  repeat' split
  all_goals intro h
  all_goals first
    | exact ⟨rfl, rfl⟩
    | (exact absurd rfl h)

/-- Disposition is `rateLimited` exactly when the scan count reached
`connCount`. -/
theorem socketConnection_rl_iff (cfg : MasterConfig)
    (verify : String → String → String → Bool) (now : Int) (ip : String)
    (header : Option AuthHeader) (st : MasterConn) :
    ((socketConnection cfg verify now ip header st).outcome =
        ConnOutcome.rateLimited ↔
      cfg.connCount ≤ (rlScan ip cfg.connCount cfg.connTime now
        (st.ipHistory ++ [(ip, now)]) 0 0 0).2) := by
  simp only [socketConnection]
  by_cases hrl : cfg.connCount ≤ (rlScan ip cfg.connCount cfg.connTime now
      (st.ipHistory ++ [(ip, now)]) 0 0 0).2
  · rw [if_pos hrl]
    simpa [connReject] using hrl
  · rw [if_neg hrl]
    constructor
    · intro h
      exfalso
      revert h
      repeat' split
      all_goals intro h
      all_goals simp [connReject] at h
    · intro h
      exact absurd h hrl

/-- C3 (amended): a connection attempt is refused by the rate limiter
exactly when the pushed history already holds `connCount` in-window
attempts from the same address — so the `connCount`-th attempt within the
window (not the `connCount+1`-th) is the first refused — and a refused
attempt is disconnected before the `masterVerification` challenge or any
handler registration. -/
theorem rate_limit_threshold (cfg : MasterConfig)
    (verify : String → String → String → Bool) (now : Int) (ip : String)
    (header : Option AuthHeader) (st : MasterConn) :
    ((socketConnection cfg verify now ip header st).outcome =
        ConnOutcome.rateLimited ↔
      cfg.connCount ≤
        (freshCount ip cfg.connTime now (st.ipHistory ++ [(ip, now)]) : Int)) ∧
    ((socketConnection cfg verify now ip header st).outcome =
        ConnOutcome.rateLimited →
      (socketConnection cfg verify now ip header st).sentMasterVerification =
          false ∧
        (socketConnection cfg verify now ip header st).statusHandlerRegistered =
          false) := by
  constructor
  · rw [socketConnection_rl_iff]
    have h := rlScan_count_iff ip cfg.connCount cfg.connTime now
      (st.ipHistory ++ [(ip, now)]) 0 0 0 le_rfl
    simpa using h
  · intro h
    exact socketConnection_reject_silent cfg verify now ip header st
      (by simp [h])

/-- C3 counterexample to the claim as stated: with `connCount = 2` the
second in-window attempt from `"ip"` (one fresh attempt already in the
history) is already refused — not the third. -/
theorem rate_limit_nth_attempt_cex :
    stRL.ipHistory = [("ip", 0)] ∧
    (1 : Int) - 0 < cfgRL.connTime ∧
    cfgRL.connCount = 2 ∧
    (socketConnection cfgRL (fun _ _ _ => true) 1 "ip" none stRL).outcome =
      ConnOutcome.rateLimited := by
  decide

/-- Closed instance of `rate_limit_threshold`: with `connCount = 1` the
very first attempt is refused, silently. -/
theorem rate_limit_threshold_witness :
    (socketConnection cfgRL1 (fun _ _ _ => true) 0 "ip" none stRL0).outcome =
      ConnOutcome.rateLimited ∧
    (socketConnection cfgRL1 (fun _ _ _ => true) 0 "ip" none
        stRL0).sentMasterVerification = false ∧
    (socketConnection cfgRL1 (fun _ _ _ => true) 0 "ip" none
        stRL0).statusHandlerRegistered = false := by
  have h := rate_limit_threshold cfgRL1 (fun _ _ _ => true) 0 "ip" none stRL0
  have hout := h.1.mpr (by decide)
  exact ⟨hout, (h.2 hout).1, (h.2 hout).2⟩

/-- C4 (amended): every handshake rejection leaves the socket without the
`masterVerification` challenge and without `status`/`evalRequest`-side
handler registration, and every rejection except the duplicate-master one
leaves the known-users registry (hence every `lastSeen`) unchanged.  The
duplicate-master rejection happens after `user.lastSeen = now`. -/
theorem reject_handshake_frame (cfg : MasterConfig)
    (verify : String → String → String → Bool) (now : Int) (ip : String)
    (header : Option AuthHeader) (st : MasterConn) :
    ((socketConnection cfg verify now ip header st).outcome ≠
        ConnOutcome.accepted →
      (socketConnection cfg verify now ip header st).sentMasterVerification =
          false ∧
        (socketConnection cfg verify now ip header st).statusHandlerRegistered =
          false) ∧
    ((socketConnection cfg verify now ip header st).outcome ≠
        ConnOutcome.accepted →
      (socketConnection cfg verify now ip header st).outcome ≠
        ConnOutcome.masterDuplicate →
      (socketConnection cfg verify now ip header st).state.knownUsers =
        st.knownUsers) :=
  ⟨socketConnection_reject_silent cfg verify now ip header st,
   socketConnection_reject_knownUsers cfg verify now ip header st⟩

/-- C4 counterexample to the claim as stated: a duplicate master
connection is rejected (`masterDuplicate`) yet the rejected handshake has
already overwritten the entry's `lastSeen` (5 → 100). -/
theorem reject_lastseen_master_duplicate_cex :
    (socketConnection cfgHS (fun _ _ _ => true) 100 "ip" (some hdrMaster)
        stMasterDup).outcome = ConnOutcome.masterDuplicate ∧
    (socketConnection cfgHS (fun _ _ _ => true) 100 "ip" (some hdrMaster)
        stMasterDup).state.knownUsers =
      some [("m", { masterInfo with lastSeen := 100 })] ∧
    masterInfo.lastSeen = 5 := by
  decide

/-- Closed instance of `reject_handshake_frame` on a header-less rejected
connection. -/
theorem reject_handshake_frame_witness :
    ((socketConnection cfgHS (fun _ _ _ => true) 100 "ip" none
          stRL0).sentMasterVerification = false ∧
      (socketConnection cfgHS (fun _ _ _ => true) 100 "ip" none
          stRL0).statusHandlerRegistered = false) ∧
    (socketConnection cfgHS (fun _ _ _ => true) 100 "ip" none
        stRL0).state.knownUsers = stRL0.knownUsers :=
  ⟨(reject_handshake_frame cfgHS (fun _ _ _ => true) 100 "ip" none stRL0).1
      (by decide),
   (reject_handshake_frame cfgHS (fun _ _ _ => true) 100 "ip" none stRL0).2
      (by decide) (by decide)⟩

/-- `done()` never touches the result array. -/
theorem bDone_out (num : Nat) (s : BState) : (bDone num s).out = s.out := by
  simp only [bDone]
  split
  · rfl
  · split <;> rfl

/-- `done()` never touches the error register. -/
theorem bDone_err (num : Nat) (s : BState) : (bDone num s).err = s.err := by
  simp only [bDone]
  split
  · rfl
  · split <;> rfl

/-- Folding one more completion. -/
theorem broadcastRun_concat (num : Nat) (evs : List BEvent) (ev : BEvent) :
    broadcastRun num (evs ++ [ev]) = bStep num (broadcastRun num evs) ev := by
  unfold broadcastRun
  rw [List.foldl_append]
  rfl

/-- The result array ignores a trailing immediate completion. -/
theorem outFold_concat_imm (evs : List BEvent) :
    outFold (evs ++ [BEvent.immediate]) = outFold evs := by
  unfold outFold
  rw [List.foldl_append]
  rfl

/-- The result array ignores a trailing error reply. -/
theorem outFold_concat_er (evs : List BEvent) (i : Int) (e : String) :
    outFold (evs ++ [BEvent.reply i (BReply.er e)]) = outFold evs := by
  unfold outFold
  rw [List.foldl_append]
  rfl

/-- A trailing successful reply stores its result. -/
theorem outFold_concat_ok (evs : List BEvent) (i : Int) (r : String) :
    outFold (evs ++ [BEvent.reply i (BReply.ok r)]) =
      upsertOut (outFold evs) i r := by
  unfold outFold
  rw [List.foldl_append]
  rfl

/-- Unfolding `firstErrSplit` over a leading immediate completion. -/
theorem firstErrSplit_cons_imm (l : List BEvent) :
    firstErrSplit (BEvent.immediate :: l) =
      match firstErrSplit l with
      | none => none
      | some (p, e, q) => some (BEvent.immediate :: p, e, q) := rfl

/-- Unfolding `firstErrSplit` over a leading successful reply. -/
theorem firstErrSplit_cons_ok (i : Int) (r : String) (l : List BEvent) :
    firstErrSplit (BEvent.reply i (BReply.ok r) :: l) =
      match firstErrSplit l with
      | none => none
      | some (p, e, q) => some (BEvent.reply i (BReply.ok r) :: p, e, q) := rfl

/-- Unfolding `firstErrSplit` over a leading error reply. -/
theorem firstErrSplit_cons_er (i : Int) (e : String) (l : List BEvent) :
    firstErrSplit (BEvent.reply i (BReply.er e) :: l) = some ([], e, l) := rfl

/-- Appending an immediate completion to an error-free sequence keeps it
error-free. -/
theorem firstErrSplit_concat_imm (evs : List BEvent)
    (h : firstErrSplit evs = none) :
    firstErrSplit (evs ++ [BEvent.immediate]) = none := by
  induction evs with
  | nil => rfl
  | cons hd tl ih =>
    cases hd with
    | immediate =>
      rw [firstErrSplit_cons_imm] at h
      cases htl : firstErrSplit tl with
      | none =>
        rw [List.cons_append, firstErrSplit_cons_imm, ih htl]
      | some v => rw [htl] at h; simp at h
    | reply i rr =>
      cases rr with
      | ok r =>
        rw [firstErrSplit_cons_ok] at h
        cases htl : firstErrSplit tl with
        | none =>
          rw [List.cons_append, firstErrSplit_cons_ok, ih htl]
        | some v => rw [htl] at h; simp at h
      | er e => rw [firstErrSplit_cons_er] at h; cases h

/-- Appending a successful reply to an error-free sequence keeps it
error-free. -/
theorem firstErrSplit_concat_ok (evs : List BEvent) (j : Int) (r0 : String)
    (h : firstErrSplit evs = none) :
    firstErrSplit (evs ++ [BEvent.reply j (BReply.ok r0)]) = none := by
  induction evs with
  | nil => rfl
  | cons hd tl ih =>
    cases hd with
    | immediate =>
      rw [firstErrSplit_cons_imm] at h
      cases htl : firstErrSplit tl with
      | none =>
        rw [List.cons_append, firstErrSplit_cons_imm, ih htl]
      | some v => rw [htl] at h; simp at h
    | reply i rr =>
      cases rr with
      | ok r =>
        rw [firstErrSplit_cons_ok] at h
        cases htl : firstErrSplit tl with
        | none =>
          rw [List.cons_append, firstErrSplit_cons_ok, ih htl]
        | some v => rw [htl] at h; simp at h
      | er e => rw [firstErrSplit_cons_er] at h; cases h

/-- Appending an error reply to an error-free sequence makes it the first
error, with the whole sequence before it as prefix. -/
theorem firstErrSplit_concat_er (evs : List BEvent) (j : Int) (e0 : String)
    (h : firstErrSplit evs = none) :
    firstErrSplit (evs ++ [BEvent.reply j (BReply.er e0)]) =
      some (evs, e0, []) := by
  induction evs with
  | nil => rfl
  | cons hd tl ih =>
    cases hd with
    | immediate =>
      rw [firstErrSplit_cons_imm] at h
      cases htl : firstErrSplit tl with
      | none =>
        rw [List.cons_append, firstErrSplit_cons_imm, ih htl]
      | some v => rw [htl] at h; simp at h
    | reply i rr =>
      cases rr with
      | ok r =>
        rw [firstErrSplit_cons_ok] at h
        cases htl : firstErrSplit tl with
        | none =>
          rw [List.cons_append, firstErrSplit_cons_ok, ih htl]
        | some v => rw [htl] at h; simp at h
      | er e => rw [firstErrSplit_cons_er] at h; cases h

/-- Once a first error exists, later completions only extend its tail. -/
theorem firstErrSplit_concat_some (evs : List BEvent) (ev : BEvent)
    (p : List BEvent) (e : String) (q : List BEvent)
    (h : firstErrSplit evs = some (p, e, q)) :
    firstErrSplit (evs ++ [ev]) = some (p, e, q ++ [ev]) := by
  induction evs generalizing p e q with
  | nil => cases h
  | cons hd tl ih =>
    cases hd with
    | immediate =>
      rw [firstErrSplit_cons_imm] at h
      cases htl : firstErrSplit tl with
      | none => rw [htl] at h; cases h
      | some v =>
        obtain ⟨p', e', q'⟩ := v
        rw [htl] at h
        simp only [Option.some.injEq, Prod.mk.injEq] at h
        obtain ⟨hp, he, hq⟩ := h
        rw [List.cons_append, firstErrSplit_cons_imm, ih p' e' q' htl]
        rw [← hp, ← he, ← hq]
    | reply i rr =>
      cases rr with
      | ok r =>
        rw [firstErrSplit_cons_ok] at h
        cases htl : firstErrSplit tl with
        | none => rw [htl] at h; cases h
        | some v =>
          obtain ⟨p', e', q'⟩ := v
          rw [htl] at h
          simp only [Option.some.injEq, Prod.mk.injEq] at h
          obtain ⟨hp, he, hq⟩ := h
          rw [List.cons_append, firstErrSplit_cons_ok, ih p' e' q' htl]
          rw [← hp, ← he, ← hq]
      | er e' =>
        rw [firstErrSplit_cons_er] at h
        simp only [Option.some.injEq, Prod.mk.injEq] at h
        obtain ⟨hp, he, hq⟩ := h
        rw [List.cons_append, firstErrSplit_cons_er]
        rw [← hp, ← he, ← hq]

/-- Introduce `bInv` when no error has occurred. -/
theorem bInv_of_none (num : Nat) (evs : List BEvent) (s : BState)
    (hsp : firstErrSplit evs = none) (hout : s.out = outFold evs)
    (herr : s.err = none) (hnd : s.numDone = evs.length)
    (hcalls : s.calls =
      if evs.length = num ∧ 1 ≤ num then [BCall.succeeded (outFold evs)]
      else []) : bInv num evs s := by
  unfold bInv
  rw [hsp]
  exact ⟨hout, herr, hnd, hcalls⟩

/-- Eliminate `bInv` when no error has occurred. -/
theorem bInv_none_elim (num : Nat) (evs : List BEvent) (s : BState)
    (hsp : firstErrSplit evs = none) (h : bInv num evs s) :
    s.out = outFold evs ∧ s.err = none ∧ s.numDone = evs.length ∧
      s.calls =
        if evs.length = num ∧ 1 ≤ num then [BCall.succeeded (outFold evs)]
        else [] := by
  obtain ⟨hout, hrest⟩ := h
  rw [hsp] at hrest
  exact ⟨hout, hrest⟩

/-- Introduce `bInv` after the first error. -/
theorem bInv_of_some (num : Nat) (evs : List BEvent) (s : BState)
    (p : List BEvent) (e : String) (q : List BEvent)
    (hsp : firstErrSplit evs = some (p, e, q)) (hout : s.out = outFold evs)
    (herr : s.err.isSome = true) (hnd : s.numDone = num + 1 + q.length)
    (hcalls : s.calls = [BCall.failed e]) : bInv num evs s := by
  unfold bInv
  rw [hsp]
  exact ⟨hout, herr, hnd, hcalls⟩

/-- Eliminate `bInv` after the first error. -/
theorem bInv_some_elim (num : Nat) (evs : List BEvent) (s : BState)
    (p : List BEvent) (e : String) (q : List BEvent)
    (hsp : firstErrSplit evs = some (p, e, q)) (h : bInv num evs s) :
    s.out = outFold evs ∧ s.err.isSome = true ∧
      s.numDone = num + 1 + q.length ∧ s.calls = [BCall.failed e] := by
  obtain ⟨hout, hrest⟩ := h
  rw [hsp] at hrest
  exact ⟨hout, hrest⟩

/-- `done()` before the last completion, no error pending. -/
theorem bDone_mid (num : Nat) (s : BState) (herr : s.err = none)
    (hne : s.numDone + 1 ≠ num) :
    (bDone num s).numDone = s.numDone + 1 ∧ (bDone num s).calls = s.calls := by
  simp only [bDone]
  rw [if_neg (by rw [herr]; rintro ⟨ha, _⟩; cases ha), if_neg hne]
  exact ⟨rfl, rfl⟩

/-- The final `done()`, no error: the success callback fires. -/
theorem bDone_fire_success (num : Nat) (s : BState) (herr : s.err = none)
    (heq : s.numDone + 1 = num) :
    (bDone num s).numDone = num ∧
      (bDone num s).calls = s.calls ++ [BCall.succeeded s.out] := by
  simp only [bDone]
  rw [if_neg (by rw [herr]; rintro ⟨ha, _⟩; cases ha), if_pos heq]
  exact ⟨heq, rfl⟩

/-- `done()` right after an error was stored: the error callback fires and
`numDone` jumps past `num`. -/
theorem bDone_fire_error (num : Nat) (s : BState) (e : String)
    (herr : s.err = some e) (hle : s.numDone + 1 ≤ num) :
    (bDone num s).numDone = num + 1 ∧
      (bDone num s).calls = s.calls ++ [BCall.failed e] := by
  simp only [bDone]
  rw [if_pos ⟨by rw [herr]; rfl, hle⟩]
  constructor
  · rfl
  · rw [herr]
    rfl

/-- `done()` once the callback has already fired with an error. -/
theorem bDone_late (num : Nat) (s : BState) (_hs : s.err.isSome = true)
    (hgt : num < s.numDone + 1) :
    (bDone num s).numDone = s.numDone + 1 ∧ (bDone num s).calls = s.calls := by
  simp only [bDone]
  rw [if_neg (fun hc => absurd hc.2 (by omega)), if_neg (by omega)]
  exact ⟨rfl, rfl⟩

/-- One completion preserves the closure invariant. -/
theorem bInv_step (num : Nat) (evs : List BEvent) (ev : BEvent) (s : BState)
    (hlen : evs.length + 1 ≤ num) (h : bInv num evs s) :
    bInv num (evs ++ [ev]) (bStep num s ev) := by
  cases hsplit : firstErrSplit evs with
  | none =>
    obtain ⟨hout, herr, hnd, hcalls⟩ := bInv_none_elim num evs s hsplit h
    have hcnil : s.calls = [] := by
      rw [hcalls, if_neg]
      rintro ⟨h1, _⟩
      omega
    cases ev with
    | immediate =>
      by_cases hfin : s.numDone + 1 = num
      · apply bInv_of_none num _ _ (firstErrSplit_concat_imm evs hsplit)
        · show (bDone num s).out = _
          rw [bDone_out, outFold_concat_imm]
          exact hout
        · show (bDone num s).err = none
          rw [bDone_err]
          exact herr
        · show (bDone num s).numDone = _
          rw [(bDone_fire_success num s herr hfin).1]
          rw [List.length_append]
          simp
          omega
        · show (bDone num s).calls = _
          rw [(bDone_fire_success num s herr hfin).2, hcnil,
            outFold_concat_imm]
          rw [if_pos ⟨by rw [List.length_append]; simp; omega, by omega⟩]
          rw [hout]
          rfl
      · apply bInv_of_none num _ _ (firstErrSplit_concat_imm evs hsplit)
        · show (bDone num s).out = _
          rw [bDone_out, outFold_concat_imm]
          exact hout
        · show (bDone num s).err = none
          rw [bDone_err]
          exact herr
        · show (bDone num s).numDone = _
          rw [(bDone_mid num s herr hfin).1, hnd, List.length_append]
          simp
        · show (bDone num s).calls = _
          rw [(bDone_mid num s herr hfin).2, hcnil, if_neg]
          rintro ⟨h1, _⟩
          rw [List.length_append] at h1
          simp at h1
          omega
    | reply j rr =>
      cases rr with
      | ok r =>
        by_cases hfin : s.numDone + 1 = num
        · apply bInv_of_none num _ _ (firstErrSplit_concat_ok evs j r hsplit)
          · show (bDone num { s with out := upsertOut s.out j r }).out = _
            rw [bDone_out, outFold_concat_ok, hout]
          · show (bDone num { s with out := upsertOut s.out j r }).err = none
            rw [bDone_err]
            exact herr
          · show (bDone num { s with out := upsertOut s.out j r }).numDone = _
            rw [(bDone_fire_success num { s with out := upsertOut s.out j r } herr hfin).1, List.length_append]
            simp
            omega
          · show (bDone num { s with out := upsertOut s.out j r }).calls = _
            rw [(bDone_fire_success num { s with out := upsertOut s.out j r } herr hfin).2, hcnil,
              outFold_concat_ok]
            rw [if_pos ⟨by rw [List.length_append]; simp; omega, by omega⟩]
            rw [hout]
            rfl
        · apply bInv_of_none num _ _ (firstErrSplit_concat_ok evs j r hsplit)
          · show (bDone num { s with out := upsertOut s.out j r }).out = _
            rw [bDone_out, outFold_concat_ok, hout]
          · show (bDone num { s with out := upsertOut s.out j r }).err = none
            rw [bDone_err]
            exact herr
          · show (bDone num { s with out := upsertOut s.out j r }).numDone = _
            rw [(bDone_mid num { s with out := upsertOut s.out j r } herr hfin).1, List.length_append]
            simp
            omega
          · show (bDone num { s with out := upsertOut s.out j r }).calls = _
            rw [(bDone_mid num { s with out := upsertOut s.out j r } herr hfin).2, hcnil, if_neg]
            rintro ⟨h1, _⟩
            rw [List.length_append] at h1
            simp at h1
            omega
      | er e =>
        have hle : s.numDone + 1 ≤ num := by omega
        apply bInv_of_some num _ _ evs e []
          (firstErrSplit_concat_er evs j e hsplit)
        · show (bDone num { s with err := some e }).out = _
          rw [bDone_out, outFold_concat_er]
          exact hout
        · show (bDone num { s with err := some e }).err.isSome = true
          rw [bDone_err]
          rfl
        · show (bDone num { s with err := some e }).numDone = _
          rw [(bDone_fire_error num { s with err := some e } e rfl hle).1]
          simp
        · show (bDone num { s with err := some e }).calls = _
          rw [(bDone_fire_error num { s with err := some e } e rfl hle).2, hcnil]
          rfl
  | some v =>
    obtain ⟨p, e, q⟩ := v
    obtain ⟨hout, hsome, hnd, hcalls⟩ := bInv_some_elim num evs s p e q hsplit h
    have hgt : num < s.numDone + 1 := by omega
    have hfs := firstErrSplit_concat_some evs ev p e q hsplit
    cases ev with
    | immediate =>
      apply bInv_of_some num _ _ p e (q ++ [BEvent.immediate]) hfs
      · show (bDone num s).out = _
        rw [bDone_out, outFold_concat_imm]
        exact hout
      · show (bDone num s).err.isSome = true
        rw [bDone_err]
        exact hsome
      · show (bDone num s).numDone = _
        rw [(bDone_late num s hsome hgt).1, hnd, List.length_append]
        simp
        omega
      · show (bDone num s).calls = _
        rw [(bDone_late num s hsome hgt).2]
        exact hcalls
    | reply j rr =>
      cases rr with
      | ok r =>
        apply bInv_of_some num _ _ p e (q ++ [BEvent.reply j (BReply.ok r)]) hfs
        · show (bDone num { s with out := upsertOut s.out j r }).out = _
          rw [bDone_out, outFold_concat_ok, hout]
        · show (bDone num { s with out := upsertOut s.out j r }).err.isSome = true
          rw [bDone_err]
          exact hsome
        · show (bDone num { s with out := upsertOut s.out j r }).numDone = _
          rw [(bDone_late num { s with out := upsertOut s.out j r } hsome hgt).1, hnd, List.length_append]
          simp
          omega
        · show (bDone num { s with out := upsertOut s.out j r }).calls = _
          rw [(bDone_late num { s with out := upsertOut s.out j r } hsome hgt).2]
          exact hcalls
      | er e' =>
        apply bInv_of_some num _ _ p e (q ++ [BEvent.reply j (BReply.er e')]) hfs
        · show (bDone num { s with err := some e' }).out = _
          rw [bDone_out, outFold_concat_er]
          exact hout
        · show (bDone num { s with err := some e' }).err.isSome = true
          rw [bDone_err]
          rfl
        · show (bDone num { s with err := some e' }).numDone = _
          rw [(bDone_late num { s with err := some e' } (by rfl) hgt).1, hnd, List.length_append]
          simp
          omega
        · show (bDone num { s with err := some e' }).calls = _
          rw [(bDone_late num { s with err := some e' } (by rfl) hgt).2]
          exact hcalls

/-- Processing further completions preserves the closure invariant. -/
theorem bInv_run_aux (num : Nat) :
    ∀ (rest pre : List BEvent) (s : BState),
      (pre ++ rest).length ≤ num → bInv num pre s →
      bInv num (pre ++ rest) (rest.foldl (bStep num) s) := by
  intro rest
  induction rest with
  | nil =>
    intro pre s h hinv
    simpa using hinv
  | cons ev tl ih =>
    intro pre s h hinv
    have h1 : pre.length + 1 ≤ num := by
      rw [List.length_append, List.length_cons] at h
      omega
    have hstep := bInv_step num pre ev s h1 hinv
    have h2 : ((pre ++ [ev]) ++ tl).length ≤ num := by
      rw [List.append_assoc]
      simpa using h
    have := ih (pre ++ [ev]) (bStep num s ev) h2 hstep
    rw [List.append_assoc] at this
    simpa using this

/-- The closure invariant holds after any completion prefix of length at
most `num`. -/
theorem bInv_run (num : Nat) (evs : List BEvent) (hlen : evs.length ≤ num) :
    bInv num evs (broadcastRun num evs) := by
  have hbase : bInv num [] bInit := by
    apply bInv_of_none num [] bInit rfl rfl rfl rfl
    rw [if_neg]
    · rfl
    · rintro ⟨h1, h2⟩
      simp only [List.length_nil] at h1
      omega
  have := bInv_run_aux num evs [] bInit (by simpa using hlen) hbase
  simpa [broadcastRun] using this

/-- Looking up a key right after storing it. -/
theorem find?_upsert_self (out : List (Int × String)) (i : Int) (r : String) :
    ((upsertOut out i r).find? fun p => p.1 = i) = some (i, r) := by
  unfold upsertOut
  cases hany : out.any fun p => p.1 = i with
  | false =>
    simp only [Bool.false_eq_true, if_false]
    induction out with
    | nil => simp
    | cons x xs ih =>
      have hx : ¬x.1 = i := by
        rw [List.any_cons] at hany
        simp only [Bool.or_eq_false_iff] at hany
        simpa using hany.1
      simp only [List.cons_append, List.find?]
      rw [decide_eq_false hx]
      apply ih
      rw [List.any_cons] at hany
      simp only [Bool.or_eq_false_iff] at hany
      exact hany.2
  | true =>
    simp only [if_true]
    obtain ⟨x, hx, hxi⟩ := List.any_eq_true.mp hany
    clear hany
    induction out with
    | nil => cases hx
    | cons y ys ih =>
      by_cases hy : y.1 = i
      · simp [List.find?, hy]
      · simp only [List.map_cons, if_neg hy, List.find?]
        rw [decide_eq_false hy]
        rcases List.mem_cons.mp hx with rfl | hxs
        · exact absurd (by simpa using hxi) hy
        · exact ih hxs
  
/-- Overwriting the entry for one key does not change lookups of another
key. -/
theorem find?_map_setkey (ys : List (Int × String)) (i j : Int) (r : String)
    (hne : j ≠ i) :
    ((ys.map fun p => if p.1 = j then (j, r) else p).find? fun p => p.1 = i) =
      ys.find? fun p => p.1 = i := by
  induction ys with
  | nil => rfl
  | cons y ys ih =>
    by_cases hy : y.1 = j
    · have hyi : ¬y.1 = i := fun hc => hne (hy.symm.trans hc)
      simp only [List.map_cons, if_pos hy, List.find?]
      rw [decide_eq_false (show ¬(j, r).1 = i from hne),
        decide_eq_false hyi]
      exact ih
    · simp only [List.map_cons, if_neg hy, List.find?]
      cases hxi : decide (y.1 = i) with
      | true => rfl
      | false => exact ih

/-- Storing a different key does not change a lookup. -/
theorem find?_upsert_other (out : List (Int × String)) (i j : Int)
    (r : String) (hne : j ≠ i) :
    ((upsertOut out j r).find? fun p => p.1 = i) =
      out.find? fun p => p.1 = i := by
  unfold upsertOut
  cases hany : out.any fun p => p.1 = j with
  | false =>
    simp only [Bool.false_eq_true, if_false]
    induction out with
    | nil => simp [List.find?, decide_eq_false hne]
    | cons x xs ih =>
      simp only [List.cons_append, List.find?]
      cases hxi : decide (x.1 = i) with
      | true => rfl
      | false =>
        apply ih
        rw [List.any_cons] at hany
        simp only [Bool.or_eq_false_iff] at hany
        exact hany.2
  | true =>
    simp only [if_true]
    exact find?_map_setkey out i j r hne

/-- A successful reply's partition id appears among the ok-ids. -/
theorem mem_okIds (evs : List BEvent) (i : Int) (r : String)
    (h : BEvent.reply i (BReply.ok r) ∈ evs) : i ∈ okIds evs := by
  unfold okIds
  rw [List.mem_filterMap]
  exact ⟨BEvent.reply i (BReply.ok r), h, rfl⟩

/-- Completions whose id never appears among the remaining ok replies do
not change that id's result. -/
theorem outFoldFrom_find?_not_mem (evs : List BEvent) :
    ∀ (acc : List (Int × String)) (i : Int), i ∉ okIds evs →
      ((outFoldFrom acc evs).find? fun p => p.1 = i) =
        acc.find? fun p => p.1 = i := by
  induction evs with
  | nil => intro acc i _; rfl
  | cons ev tl ih =>
    intro acc i h
    cases ev with
    | immediate =>
      exact ih acc i (by simpa [okIds] using h)
    | reply j rr =>
      cases rr with
      | ok r =>
        have hm : i ∉ okIds tl ∧ j ≠ i := by
          unfold okIds at h ⊢
          simp only [List.filterMap_cons] at h
          simp only [List.mem_cons] at h
          push_neg at h
          exact ⟨h.2, fun hc => h.1 hc.symm⟩
        show ((outFoldFrom (upsertOut acc j r) tl).find? fun p => p.1 = i) = _
        rw [ih _ i hm.1, find?_upsert_other acc i j r hm.2]
      | er e =>
        exact ih acc i (by simpa [okIds] using h)

/-- With pairwise-distinct ok-ids, the folded result array maps each
successful reply's partition id to that reply. -/
theorem outFold_lookup (evs : List BEvent) :
    ∀ (acc : List (Int × String)) (i : Int) (r : String),
      List.Pairwise (fun a b => a ≠ b) (okIds evs) →
      BEvent.reply i (BReply.ok r) ∈ evs →
      ((outFoldFrom acc evs).find? fun p => p.1 = i) = some (i, r) := by
  induction evs with
  | nil => intro acc i r _ hm; cases hm
  | cons ev tl ih =>
    intro acc i r hpw hm
    rcases List.mem_cons.mp hm with heq | htl
    · cases heq
      have hpw' : ∀ b ∈ okIds tl, i ≠ b := by
        unfold okIds at hpw
        simp only [List.filterMap_cons] at hpw
        exact (List.pairwise_cons.mp hpw).1
      have hni : i ∉ okIds tl := fun hc => (hpw' i hc) rfl
      show ((outFoldFrom (upsertOut acc i r) tl).find? fun p => p.1 = i) = _
      rw [outFoldFrom_find?_not_mem tl _ i hni, find?_upsert_self]
    · cases ev with
      | immediate =>
        exact ih acc i r (by simpa [okIds, List.filterMap_cons] using hpw) htl
      | reply j rr =>
        cases rr with
        | ok r' =>
          have hii : i ∈ okIds tl := mem_okIds tl i r htl
          have hpwc : (∀ b ∈ okIds tl, j ≠ b) ∧
              List.Pairwise (fun a b => a ≠ b) (okIds tl) := by
            unfold okIds at hpw
            simp only [List.filterMap_cons] at hpw
            exact List.pairwise_cons.mp hpw
          show ((outFoldFrom (upsertOut acc j r') tl).find? fun p => p.1 = i) = _
          exact ih _ i r hpwc.2 htl
        | er e =>
          exact ih acc i r (by simpa [okIds, List.filterMap_cons] using hpw) htl

/-- C6 (amended): over `num ≥ 1` connected shard sockets, once one
completion per socket has been processed the callback has fired exactly
once; if some reply errored, the callback fired with the first-arriving
error (later replies are ignored); otherwise it fired with the result
array holding, for pairwise-distinct partition ids, each worker's reply
under its current partition id.  (With zero connected sockets the callback
never fires — see the counterexample.) -/
theorem broadcast_eval_callback (num : Nat) (evs : List BEvent)
    (hlen : evs.length = num) (hnum : 1 ≤ num) :
    (broadcastRun num evs).calls.length = 1 ∧
    (∀ p e q, firstErrSplit evs = some (p, e, q) →
      (broadcastRun num evs).calls = [BCall.failed e]) ∧
    (firstErrSplit evs = none →
      (broadcastRun num evs).calls = [BCall.succeeded (outFold evs)] ∧
      (List.Pairwise (fun a b => a ≠ b) (okIds evs) → ∀ i r,
        BEvent.reply i (BReply.ok r) ∈ evs →
        ((outFold evs).find? fun p => p.1 = i) = some (i, r))) := by
  have hinv := bInv_run num evs (le_of_eq hlen)
  cases hsplit : firstErrSplit evs with
  | none =>
    obtain ⟨hout, herr, hnd, hcalls⟩ := bInv_none_elim num evs _ hsplit hinv
    rw [if_pos ⟨hlen, hnum⟩] at hcalls
    refine ⟨by rw [hcalls]; rfl, ?_, ?_⟩
    · intro p e q hq
      cases hq
    · intro _
      refine ⟨hcalls, ?_⟩
      intro hpw i r hm
      exact outFold_lookup evs [] i r hpw hm
  | some v =>
    obtain ⟨p, e, q⟩ := v
    obtain ⟨hout, hsome, hnd, hcalls⟩ :=
      bInv_some_elim num evs _ p e q hsplit hinv
    refine ⟨by rw [hcalls]; rfl, ?_, ?_⟩
    · intro p' e' q' hq
      simp only [Option.some.injEq, Prod.mk.injEq] at hq
      rw [hcalls, hq.2.1]
    · intro hnone
      cases hnone

/-- C6 counterexample to the claim as stated: with zero connected shard
sockets `broadcastEvalToShards` never invokes its callback (zero firings,
not exactly one). -/
theorem broadcast_eval_zero_shards_cex :
    (broadcastRun 0 []).calls = [] ∧ (broadcastRun 0 []).calls.length = 0 := by
  exact ⟨rfl, rfl⟩

/-- Closed instance of `broadcast_eval_callback`: two sockets, two
successful replies, one callback with both results indexed by partition
id. -/
theorem broadcast_eval_callback_witness :
    (broadcastRun 2 evsOk).calls = [BCall.succeeded (outFold evsOk)] ∧
    ((outFold evsOk).find? fun p => p.1 = 0) = some (0, "a") ∧
    ((outFold evsOk).find? fun p => p.1 = 1) = some (1, "b") := by
  have h := broadcast_eval_callback 2 evsOk (by decide) (by decide)
  have h2 := h.2.2 (by decide)
  refine ⟨h2.1, ?_, ?_⟩
  · exact h2.2 (by decide) 0 "a" (by decide)
  · exact h2.2 (by decide) 1 "b" (by decide)

/-- A demoted entry never claims a target pair with `c ≠ -1`. -/
theorem claimsPairB_demote (p c now : Int) (e : ShardInfo) (hc : c ≠ -1) :
    claimsPairB p c (demoteInfo now e) = false := by
  unfold claimsPairB
  apply decide_eq_false
  rintro ⟨h1, h2⟩
  exact hc h2.symm

/-- Once the target pair is registered in `foundIds`, no later entry
survives with it. -/
theorem goPass_found_filter_nil (hb : HeartbeatConfig) (now p c : Int)
    (hc : c ≠ -1) :
    ∀ (found : List (Int × Int)) (l : List ShardInfo), (p, c) ∈ found →
      ((goPass hb now found l).map Prod.snd).filter (claimsPairB p c) = [] := by
  intro found l
  induction l generalizing found with
  | nil => intro _; rfl
  | cons el rest ih =>
    intro hf
    unfold goPass
    split
    · rw [List.map_cons, List.filter_cons, claimsPairB_demote p c now el hc]
      simp only [Bool.false_eq_true, if_false]
      exact ih found hf
    · split
      · rw [List.map_cons, List.filter_cons, claimsPairB_demote p c now el hc]
        simp only [Bool.false_eq_true, if_false]
        exact ih found hf
      · have hnotin : (el.goalShardId, el.goalShardCount) ∉ found := by
          assumption
        have hne : claimsPairB p c el = false := by
          unfold claimsPairB
          apply decide_eq_false
          rintro ⟨h1, h2⟩
          exact hnotin (by rw [h1, h2]; exact hf)
        rw [List.map_cons, List.filter_cons, hne]
        simp only [Bool.false_eq_true, if_false]
        exact ih _ (List.mem_cons_of_mem _ hf)

/-- With the pair unregistered and every claimant fresh, exactly the first
claimant survives the loop with the pair; all later claimants are
demoted. -/
theorem goPass_fresh_take (hb : HeartbeatConfig) (now p c : Int)
    (hc : c ≠ -1) :
    ∀ (found : List (Int × Int)) (l : List ShardInfo),
      (p, c) ∉ found →
      (∀ e ∈ l, claimsPair p c e → ¬staleWin hb now e) →
      ((goPass hb now found l).map Prod.snd).filter (claimsPairB p c) =
        (l.filter (claimsPairB p c)).take 1 := by
  intro found l
  induction l generalizing found with
  | nil => intro _ _; rfl
  | cons el rest ih =>
    intro hnf hfresh
    unfold goPass
    split
    · have hclf : claimsPairB p c el = false := by
        unfold claimsPairB
        apply decide_eq_false
        intro hcl
        exact (hfresh el (by simp) hcl) (by assumption)
      rw [List.map_cons, List.filter_cons, List.filter_cons,
        claimsPairB_demote p c now el hc, hclf]
      simp only [Bool.false_eq_true, if_false]
      exact ih found hnf fun e he => hfresh e (List.mem_cons_of_mem _ he)
    · split
      · have hclf : claimsPairB p c el = false := by
          unfold claimsPairB
          apply decide_eq_false
          rintro ⟨h1, h2⟩
          apply hnf
          have hmem : (el.goalShardId, el.goalShardCount) ∈ found := by
            assumption
          rwa [h1, h2] at hmem
        rw [List.map_cons, List.filter_cons, List.filter_cons,
          claimsPairB_demote p c now el hc, hclf]
        simp only [Bool.false_eq_true, if_false]
        exact ih found hnf fun e he => hfresh e (List.mem_cons_of_mem _ he)
      · by_cases hcl : claimsPair p c el
        · have hclt : claimsPairB p c el = true := decide_eq_true hcl
          rw [List.map_cons, List.filter_cons, List.filter_cons, hclt]
          simp only [if_true]
          rw [goPass_found_filter_nil hb now p c hc _ rest
            (by rw [hcl.1, hcl.2]; exact List.mem_cons_self _ _)]
          rfl
        · have hclf : claimsPairB p c el = false := decide_eq_false hcl
          rw [List.map_cons, List.filter_cons, List.filter_cons, hclf]
          simp only [Bool.false_eq_true, if_false]
          apply ih
          · intro hmem
            rcases List.mem_cons.mp hmem with heq | htl
            · rw [Prod.mk.injEq] at heq
              exact hcl ⟨heq.1.symm, heq.2.symm⟩
            · exact hnf htl
          · exact fun e he => hfresh e (List.mem_cons_of_mem _ he)

/-- Inserting into a descending-boot-time list keeps it descending. -/
theorem insertBoot_pairwise (e : ShardInfo) (l : List ShardInfo)
    (h : List.Pairwise (fun a b => b.bootTime ≤ a.bootTime) l) :
    List.Pairwise (fun a b => b.bootTime ≤ a.bootTime) (insertBoot e l) := by
  induction l with
  | nil => simp [insertBoot]
  | cons x xs ih =>
    rw [List.pairwise_cons] at h
    unfold insertBoot
    split
    · rw [List.pairwise_cons]
      constructor
      · intro y hy
        have hy' : y ∈ e :: xs := (insertBoot_perm e xs).mem_iff.mp hy
        rcases List.mem_cons.mp hy' with rfl | hxs
        · assumption
        · exact h.1 y hxs
      · exact ih h.2
    · rw [List.pairwise_cons]
      constructor
      · intro y hy
        rcases List.mem_cons.mp hy with rfl | hxs
        · omega
        · have := h.1 y hxs
          omega
      · exact List.pairwise_cons.mpr ⟨h.1, h.2⟩

/-- The boot-time sort yields a descending list. -/
theorem sortBoot_pairwise (l : List ShardInfo) :
    List.Pairwise (fun a b => b.bootTime ≤ a.bootTime) (sortBoot l) := by
  induction l with
  | nil => exact List.Pairwise.nil
  | cons e rest ih => exact insertBoot_pairwise e (sortBoot rest) ih

/-- C1 (amended): if the entries claiming target pair `(p, c)` (with
`c ≠ -1`) are all fresh (heartbeat age at most `requestRebootAfter`) and
`m` among them has the strictly greatest `bootTime`, then after one pass
exactly `m` survives with the assignment and every other claimant is
demoted to `goalShardId = -1`, `goalShardCount = -1`, `stopTime = now`.
(Claimants inside the reboot-request staleness window are demoted by the
stale check first, so with only "not dead" claimants the most recently
booted need not survive — see the counterexample.) -/
theorem duplicate_resolution_max_boot (hb : HeartbeatConfig) (now : Int)
    (correct : List ShardInfo) (p c : Int) (m : ShardInfo)
    (hc : c ≠ -1)
    (hfresh : ∀ e ∈ correct, claimsPair p c e →
      now - e.lastHeartbeat ≤ hb.requestRebootAfter)
    (hm : m ∈ correct) (hmc : claimsPair p c m)
    (_hG2 : 2 ≤ (correct.filter (claimsPairB p c)).length)
    (hmax : ∀ e ∈ correct, claimsPair p c e → e ≠ m →
      e.bootTime < m.bootTime) :
    (refreshCorrect hb now correct).filter (claimsPairB p c) = [m] ∧
    ∀ e ∈ correct, claimsPair p c e → e ≠ m →
      demoteInfo now e ∈ refreshCorrect hb now correct := by
  have hperm := sortBoot_perm correct
  have hfresh' : ∀ e ∈ sortBoot correct, claimsPair p c e →
      ¬staleWin hb now e := by
    intro e he hcl
    have hage := hfresh e (hperm.mem_iff.mp he) hcl
    rintro ⟨hs1, _⟩
    omega
  have htake :
      (refreshCorrect hb now correct).filter (claimsPairB p c) =
        ((sortBoot correct).filter (claimsPairB p c)).take 1 :=
    goPass_fresh_take hb now p c hc [] (sortBoot correct) (by simp) hfresh'
  have hsorted : List.Pairwise (fun a b => b.bootTime ≤ a.bootTime)
      ((sortBoot correct).filter (claimsPairB p c)) :=
    List.Pairwise.sublist (List.filter_sublist _) (sortBoot_pairwise correct)
  have hmG : m ∈ (sortBoot correct).filter (claimsPairB p c) :=
    List.mem_filter.mpr ⟨hperm.mem_iff.mpr hm, decide_eq_true hmc⟩
  have hhead : ((sortBoot correct).filter (claimsPairB p c)).take 1 = [m] := by
    cases hsg : (sortBoot correct).filter (claimsPairB p c) with
    | nil => rw [hsg] at hmG; cases hmG
    | cons hd tl =>
      have hhd : hd = m := by
        by_cases hdm : hd = m
        · exact hdm
        · exfalso
          have hdmem : hd ∈ (sortBoot correct).filter (claimsPairB p c) := by
            rw [hsg]; exact List.mem_cons_self _ _
          have hdc : hd ∈ correct ∧ claimsPair p c hd := by
            have := List.mem_filter.mp hdmem
            exact ⟨hperm.mem_iff.mp this.1, of_decide_eq_true this.2⟩
          have hlt : hd.bootTime < m.bootTime := hmax hd hdc.1 hdc.2 hdm
          rw [hsg] at hmG
          rcases List.mem_cons.mp hmG with rfl | hmtl
          · exact hdm rfl
          · rw [hsg, List.pairwise_cons] at hsorted
            have := hsorted.1 m hmtl
            omega
      rw [List.take]
      rw [hhd]
      rfl
  refine ⟨htake.trans hhead, ?_⟩
  intro e he hcl hne
  have hes : e ∈ sortBoot correct := hperm.mem_iff.mpr he
  have hmem : e ∈ (goPass hb now [] (sortBoot correct)).map Prod.fst := by
    rw [goPass_map_fst]
    exact hes
  obtain ⟨pr, hpr, hpre⟩ := List.mem_map.mp hmem
  rcases goPass_snd_shape hb now [] (sortBoot correct) pr hpr with hsur | hdem
  · exfalso
    have hememout : e ∈ refreshCorrect hb now correct := by
      refine List.mem_map.mpr ⟨pr, hpr, ?_⟩
      rw [hsur, hpre]
    have hefil : e ∈ (refreshCorrect hb now correct).filter (claimsPairB p c) :=
      List.mem_filter.mpr ⟨hememout, decide_eq_true hcl⟩
    rw [htake.trans hhead] at hefil
    rcases List.mem_cons.mp hefil with rfl | habs
    · exact hne rfl
    · cases habs
  · refine List.mem_map.mpr ⟨pr, hpr, ?_⟩
    rw [hdem, hpre]

/-- C1 counterexample to the claim as stated: two not-dead claimants of
`(0, 2)` whose heartbeat age lies in the reboot-request window are BOTH
demoted — no claimant survives the pass, and in particular not the most
recently booted one. -/
theorem duplicate_resolution_claim_cex :
    ((100 : Int) - dupStaleA.lastHeartbeat < hbDup.assumeDeadAfter ∧
      (100 : Int) - dupStaleB.lastHeartbeat < hbDup.assumeDeadAfter) ∧
    dupStaleA.goalShardId = 0 ∧ dupStaleB.goalShardId = 0 ∧
    dupStaleA.goalShardCount = 2 ∧ dupStaleB.goalShardCount = 2 ∧
    dupStaleB.bootTime < dupStaleA.bootTime ∧
    (refreshCorrect hbDup 100 [dupStaleA, dupStaleB]).filter
      (claimsPairB 0 2) = [] := by
  decide

/-- Closed instance of `duplicate_resolution_max_boot`: of two fresh
claimants of `(0, 2)`, the most recently booted survives and the other is
demoted. -/
theorem duplicate_resolution_max_boot_witness :
    (refreshCorrect hbDup 100 [dupFreshA, dupFreshB]).filter
      (claimsPairB 0 2) = [dupFreshA] ∧
    demoteInfo 100 dupFreshB ∈
      refreshCorrect hbDup 100 [dupFreshA, dupFreshB] := by
  have h := duplicate_resolution_max_boot hbDup 100 [dupFreshA, dupFreshB] 0 2
    dupFreshA (by decide) (by decide) (by decide) (by decide) (by decide)
    (by decide)
  exact ⟨h.1, h.2 dupFreshB (by decide) (by decide) (by decide)⟩
